import Mathlib

/-
Verification development for the SpeechLess editing pipeline.

Shallow embedding of:
  * src/speechless/editor.py            (Editor: settings, from_json, export_json,
                                         prepare_destination, edit)
  * src/src/speechless/processing/tokenization.py  (sentence_segmentation)

Python dictionaries are modelled as association lists with in-place update
semantics (`updateA`), JSON values as the inductive `JVal`, and fallible
Python code (exceptions) as `Except` / `Option`.  The per-stream edit
contexts live in `speechless/edit_context.py`, which is not part of the
sources; the orchestrator is therefore parametrised by an abstract context
interface `CtxSpec` whose behaviour (a `done` flag that starts out false and
a `prepare_for_editing` that may return false) is modelled from the spec.
-/

namespace Speechless

/-! ## Identifiers (editor.py lines 14-25) -/

def ID_VIDEO_STREAM : String := "video"

def ID_AUDIO_STREAM : String := "audio"

def SUPPORTED_STREAM_TYPES : List String := [ID_VIDEO_STREAM, ID_AUDIO_STREAM]

def ID_CODEC : String := "codec"

def ID_CODEC_OPTIONS : String := "codec-options"

def ID_BITRATE : String := "bitrate"

def ID_RESOLUTION : String := "resolution"

def ID_MAX_FPS : String := "max-fps"

def ID_SAMPLE_RATE : String := "sample-rate"

def ID_MONO : String := "mono"

def ID_TIMELINE_CHANGES : String := "timeline-changes"

/-! ## JSON-ish values

`vnum` carries an exact rational; Python ints are rationals with denominator 1
and JSON floats are modelled exactly as rationals.  `vobj` models the
string-to-string mappings used for codec options (Python's `str()` coercion of
option values is the identity on this already-stringified shape).  -/

inductive JVal where
  | vstr (s : String)
  | vnum (q : ℚ)
  | vbool (b : Bool)
  | vnumarr (l : List ℚ)
  | vobj (opts : List (String × String))
deriving DecidableEq, Repr

/-- Lower-casing of an identifier, `identifier.lower()` (ASCII). -/
def strLower (s : String) : String := ⟨s.data.map Char.toLower⟩

/-- Python `s.endswith(t)`. -/
def strEndsWith (s t : String) : Bool :=
  decide (t.data.length ≤ s.data.length) &&
    s.data.drop (s.data.length - t.data.length) == t.data

def parseNatGo : List Char → Nat → Option Nat
  | [], acc => some acc
  | c :: rest, acc =>
    if c.isDigit then parseNatGo rest (acc * 10 + (c.toNat - 48)) else none

/-- Decimal reading of a non-empty all-digits character list. -/
def parseNat : List Char → Option Nat
  | [] => none
  | l => parseNatGo l 0

/-- Python `int(s)` on a decimal string literal (padding and a leading
plus sign are not modelled). -/
def pyIntOfString (s : String) : Option Int :=
  match s.data with
  | '-' :: rest => (parseNat rest).map (fun n => -(n : Int))
  | l => (parseNat l).map (fun n => (n : Int))

/-- Python `int()` applied to a rational: truncation toward zero. -/
def pyIntOfRat (q : ℚ) : Int := q.num.tdiv q.den

/-- Python `int(value)` (like Python, a fractional string such as "3.5" is
rejected). -/
def pyInt : JVal → Except String Int
  | .vnum q => .ok (pyIntOfRat q)
  | .vbool b => .ok (cond b 1 0)
  | .vstr s =>
    match pyIntOfString s with
    | some n => .ok n
    | none => .error "ValueError: invalid literal for int"
  | _ => .error "TypeError: int argument must be a number"

/-- Python `float(value)` (numeric-string parsing is not modelled). -/
def pyFloat : JVal → Except String ℚ
  | .vnum q => .ok q
  | .vbool b => .ok (cond b 1 0)
  | _ => .error "TypeError: float argument must be a number"

/-- Python truthiness, `bool(value)`. -/
def pyBool : JVal → Bool
  | .vstr s => s ≠ ""
  | .vnum q => q ≠ 0
  | .vbool b => b
  | .vnumarr l => l ≠ []
  | .vobj opts => opts ≠ []

/-- Python `str(value)` for the scalar shapes (container `repr`s are
approximated; no claim depends on them). -/
def pyStr : JVal → String
  | .vstr s => s
  | .vnum q => if q.den = 1 then toString q.num else toString q
  | .vbool b => cond b "True" "False"
  | .vnumarr _ => "[...]"
  | .vobj _ => "{...}"

/-! ## Association lists with Python-dict update semantics -/

/-- First-match lookup, `d.get(k)`. -/
def lookupA {α β : Type} [DecidableEq α] : List (α × β) → α → Option β
  | [], _ => none
  | (k, v) :: rest, a => if k = a then some v else lookupA rest a

/-- In-place update, `d[k] = v`: replaces the existing binding (dict keys are
unique, so replacing the first occurrence suffices), else appends (dict
insertion order). -/
def updateA {α β : Type} [DecidableEq α] : List (α × β) → α → β → List (α × β)
  | [], k, v => [(k, v)]
  | (k2, v2) :: rest, k, v =>
    if k2 = k then (k, v) :: rest else (k2, v2) :: updateA rest k v

theorem lookupA_updateA {α β : Type} [DecidableEq α]
    (l : List (α × β)) (k a : α) (v : β) :
    lookupA (updateA l k v) a = if a = k then some v else lookupA l a := by
  induction l with
  | nil =>
    by_cases h : a = k
    · simp [updateA, lookupA, h]
    · simp [updateA, lookupA, h, Ne.symm h]
  | cons hd tl ih =>
    rcases hd with ⟨k2, v2⟩
    by_cases h2 : k2 = k
    · by_cases h : a = k
      · simp [updateA, lookupA, h2, h]
      · simp [updateA, lookupA, h2, h, Ne.symm h]
    · by_cases hha : k2 = a
      · have hak : ¬a = k := fun h => h2 (hha.trans h)
        simp [updateA, lookupA, h2, hha, hak]
      · simp [updateA, lookupA, h2, hha, ih]

theorem lookupA_append {α β : Type} [DecidableEq α]
    (l₁ l₂ : List (α × β)) (a : α) :
    lookupA (l₁ ++ l₂) a = ((lookupA l₁ a).orElse (fun _ => lookupA l₂ a)) := by
  induction l₁ with
  | nil => simp [lookupA]
  | cons hd tl ih =>
    by_cases h : hd.1 = a <;> simp [lookupA, h, ih]

/-! ## Editor settings (editor.py lines 28-44)

`Editor.settings` is a dict whose keys are the stream-type strings
"video" / "audio" (always present, seeded by `__init__`) or integer
stream indices (added by `from_json`). -/

inductive SKey where
  | stype (s : String)
  | sidx (n : Nat)
deriving DecidableEq, Repr

/-- Per-stream settings mapping (configuration key to value). -/
abbrev Settings := List (String × JVal)

structure EditorM where
  settings : List (SKey × Settings)
deriving DecidableEq, Repr

/-- Constructor `Editor.__init__(video_settings, audio_settings)`. -/
def Editor.mk0 (video_settings audio_settings : Settings) : EditorM :=
  ⟨[(.stype ID_VIDEO_STREAM, video_settings),
    (.stype ID_AUDIO_STREAM, audio_settings)]⟩

/-! ## Editor.from_json (editor.py lines 193-240) -/

/-- Top-level key of a settings document.  JSON object keys are strings;
`dnum n` stands for an all-digits key (Python `identifier.isnumeric()`),
carried as the number it denotes, `dtype s` for any other identifier. -/
inductive DocKey where
  | dtype (s : String)
  | dnum (n : Nat)
deriving DecidableEq, Repr

/-- Top-level value of a settings document: a per-stream settings object, or
the persisted interval table under "timeline-changes". -/
inductive DocEntry where
  | entrySettings (config : List (String × JVal))
  | entryTable (rows : List (List ℚ))
deriving DecidableEq, Repr

/-- Classification of a top-level identifier (editor.py lines 201-211):
stream type, stream index, or skipped (the reserved interval-list key is
skipped silently, anything else is skipped with a logged warning). -/
def classifyKey : DocKey → Option SKey
  | .dtype s =>
    let s2 := strLower s
    if s2 = ID_VIDEO_STREAM ∨ s2 = ID_AUDIO_STREAM then some (.stype s2)
    else none
  | .dnum n => some (.sidx n)

/-- One `elif` arm of the per-option loop (editor.py lines 213-239). -/
def processSetting (settings : Settings) (key : String) (value : JVal) :
    Except String Settings :=
  if key = ID_CODEC then
    .ok (updateA settings key (.vstr (pyStr value)))
  else if key = ID_CODEC_OPTIONS then
    match value with
    | .vobj opts => .ok (updateA settings key (.vobj opts))
    | _ => .error "AttributeError: codec options must be a mapping"
  else if key = ID_BITRATE then
    match pyInt value with
    | .error e => .error e
    | .ok n =>
      if n ≤ 0 then .error "bitrate must be a positive number"
      else .ok (updateA settings key (.vnum (n : ℚ)))
  else if key = ID_RESOLUTION then
    match value with
    | .vnumarr dims =>
      let ns := dims.map pyIntOfRat
      match ns with
      | w :: h :: _ =>
        if w * h ≤ 0 then .error "resolution must consist of positive numbers"
        else .ok (updateA settings key
          (.vnumarr (ns.map (fun n : Int => (n : ℚ)))))
      | _ => .error "IndexError: resolution needs two dimensions"
    | _ => .error "TypeError: resolution must be an array"
  else if key = ID_MAX_FPS then
    match pyFloat value with
    | .error e => .error e
    | .ok q =>
      if q ≤ 0 then .error "max-fps must be a positive number"
      else .ok (updateA settings key (.vnum q))
  else if key = ID_SAMPLE_RATE then
    match pyInt value with
    | .error e => .error e
    | .ok n =>
      if n ≤ 0 then .error "sample-rate must be a positive number"
      else .ok (updateA settings key (.vnum (n : ℚ)))
  else if key = ID_MONO then
    .ok (updateA settings key (.vbool (pyBool value)))
  else
    .ok settings

/-- The `for key, value in config.items()` loop. -/
def processConfig (settings : Settings) (config : List (String × JVal)) :
    Except String Settings :=
  match config with
  | [] => .ok settings
  | (k, v) :: rest =>
    match processSetting settings k v with
    | .error e => .error e
    | .ok s2 => processConfig s2 rest

/-- Python `d.setdefault(k, default={})`: returns the (possibly extended) dict and
the binding for `k`. -/
def setdefaultSK (es : List (SKey × Settings)) (k : SKey) :
    List (SKey × Settings) × Settings :=
  match lookupA es k with
  | some s => (es, s)
  | none => (es ++ [(k, [])], [])

/-- The `for identifier, config in json_settings.items()` loop. -/
def from_json_go (es : List (SKey × Settings)) (doc : List (DocKey × DocEntry)) :
    Except String (List (SKey × Settings)) :=
  match doc with
  | [] => .ok es
  | (dk, entry) :: rest =>
    match classifyKey dk with
    | none => from_json_go es rest
    | some sk =>
      match entry with
      | .entrySettings config =>
        let esslot := setdefaultSK es sk
        match processConfig esslot.2 config with
        | .error e => .error e
        | .ok s2 => from_json_go (updateA esslot.1 sk s2) rest
      | .entryTable _ => .error "AttributeError: config has no items"

/-- Static method `Editor.from_json(json_settings)` (editor.py lines 193-240). -/
def Editor.from_json (doc : List (DocKey × DocEntry)) : Except String EditorM :=
  match from_json_go (Editor.mk0 [] []).settings doc with
  | .error e => .error e
  | .ok es => .ok ⟨es⟩

/-! ## Editor.export_json (editor.py lines 175-191) -/

/-- A timeline-change row (begin, end, speed multiplier). -/
abbrev ChangeRow := ℚ × ℚ × ℚ

/-- JSON stringifies integer dict keys; the resulting all-digits key parses
back to the same index, which `DocKey.dnum` captures. -/
def serializeSKey : SKey → DocKey
  | .stype s => .dtype s
  | .sidx n => .dnum n

/-- Method `Editor.export_json(path, changes)`: dumps `settings.copy()` plus the
optional interval list under the reserved key. -/
def Editor.export_json (e : EditorM) (changes : Option (List ChangeRow)) :
    List (DocKey × DocEntry) :=
  (e.settings.map (fun p => (serializeSKey p.1, DocEntry.entrySettings p.2))) ++
  (match changes with
   | none => []
   | some cs =>
     [(.dtype ID_TIMELINE_CHANGES,
       .entryTable (cs.map (fun c => [c.1, c.2.1, c.2.2])))])

/-! ## Editor.prepare_destination (editor.py lines 103-173)

Source streams are modelled by the attributes the provisioner reads.
`hasDecoder` stands for `stream.codec_context is not None`. -/

structure SrcStream where
  index : Nat
  type : String
  hasDecoder : Bool
  codecName : String
  codecOptions : List (String × String)
  bit_rate : Int
  width : Int
  height : Int
  guessed_rate : ℚ
  sample_rate : Int
  channels : Int
deriving DecidableEq, Repr

/-- Resolved configuration of a destination video stream. -/
structure VideoCfg where
  codec : JVal
  codec_options : JVal
  bitrate : JVal
  resolution : JVal
  max_fps : ℚ
deriving DecidableEq, Repr

/-- Resolved configuration of a destination audio stream. -/
structure AudioCfg where
  codec : JVal
  codec_options : JVal
  bitrate : JVal
  sample_rate : JVal
  channels : Int
deriving DecidableEq, Repr

/-- A provisioned stream-edit context (VideoEditContext / AudioEditContext),
reduced to the data prepare_destination decides. -/
inductive ProvCtx where
  | video (src : SrcStream) (cfg : VideoCfg)
  | audio (src : SrcStream) (cfg : AudioCfg)
deriving DecidableEq, Repr

/-- Diagnostics logged by prepare_destination. -/
inductive Warning where
  | unsupportedType (index : Nat) (type : String)
  | noDecoder (index : Nat)
  | lowTimeBase (maxFps possibleFps : ℚ)
deriving DecidableEq, Repr

/-- Python `Fraction(value)` on the shapes that can reach it (non-numeric
arguments raise in Python and cannot arise from validated settings; they are
mapped to 0 here). -/
def pyFraction : JVal → ℚ
  | .vnum q => q
  | .vbool b => cond b 1 0
  | _ => 0

/-- The stream-eligibility loop (editor.py lines 118-126): keep streams of a
supported type that have a decoder, log a warning for every other stream. -/
def filterStreams : List SrcStream → List SrcStream × List Warning
  | [] => ([], [])
  | s :: rest =>
    let vw := filterStreams rest
    if SUPPORTED_STREAM_TYPES.contains s.type then
      if s.hasDecoder then (s :: vw.1, vw.2)
      else (vw.1, .noDecoder s.index :: vw.2)
    else (vw.1, .unsupportedType s.index s.type :: vw.2)

/-- The merge `settings = self.settings.get(stream.type, {}).copy();
settings.update(self.settings.get(stream.index, {}))` (editor.py 130-131). -/
def mergeSettings (typeS idxS : Settings) : Settings :=
  idxS.foldl (fun acc p => updateA acc p.1 p.2) typeS

/-- Resolution `settings.get(key, default)` over the merged per-stream settings. -/
def resolvedSetting (merged : Settings) (key : String) (dflt : JVal) : JVal :=
  (lookupA merged key).getD dflt

/-- Per-stream provisioning (editor.py lines 128-159): resolve each setting
against the merged overrides, falling back to the source stream's own value.
Returns `none` for stream types no branch handles (unreachable for the
filtered streams). -/
def provisionStream (es : List (SKey × Settings)) (s : SrcStream) :
    Option ProvCtx :=
  let typeS := (lookupA es (.stype s.type)).getD []
  let idxS := (lookupA es (.sidx s.index)).getD []
  let settings := mergeSettings typeS idxS
  if s.type = ID_VIDEO_STREAM then
    some (.video s
      { codec := resolvedSetting settings ID_CODEC (.vstr s.codecName)
        codec_options := resolvedSetting settings ID_CODEC_OPTIONS (.vobj s.codecOptions)
        bitrate := resolvedSetting settings ID_BITRATE (.vnum (s.bit_rate : ℚ))
        resolution := resolvedSetting settings ID_RESOLUTION
          (.vnumarr [(s.width : ℚ), (s.height : ℚ)])
        max_fps := pyFraction (resolvedSetting settings ID_MAX_FPS (.vnum s.guessed_rate)) })
  else if s.type = ID_AUDIO_STREAM then
    some (.audio s
      { codec := resolvedSetting settings ID_CODEC (.vstr s.codecName)
        codec_options := resolvedSetting settings ID_CODEC_OPTIONS (.vobj s.codecOptions)
        bitrate := resolvedSetting settings ID_BITRATE (.vnum (s.bit_rate : ℚ))
        sample_rate := resolvedSetting settings ID_SAMPLE_RATE (.vnum (s.sample_rate : ℚ))
        channels :=
          if pyBool (resolvedSetting settings ID_MONO (.vbool false)) then 1
          else s.channels })
  else none

/-- The provisioning loop over the eligible streams, keyed by stream index
(`ctx_map`). -/
def provisionAll (es : List (SKey × Settings)) (streams : List SrcStream) :
    List (Nat × ProvCtx) :=
  streams.filterMap (fun s => (provisionStream es s).map (fun c => (s.index, c)))

/-- The time-base resolution check (editor.py lines 164-171): for every video
context, if the negotiated destination time base cannot represent the
configured maximum frame rate, clamp it and log a warning.  `negTb i` is the
time base of destination stream `i` after `start_encoding` (negotiated by the
codec library; the value written at provision time, 1/60000, "might not
work"). -/
def clampPass (negTb : Nat → ℚ) :
    List (Nat × ProvCtx) → List (Nat × ProvCtx) × List Warning
  | [] => ([], [])
  | (i, ProvCtx.video s cfg) :: rest =>
    let rw := clampPass negTb rest
    let possible_fps := 1 / negTb i
    if possible_fps < cfg.max_fps then
      ((i, .video s { cfg with max_fps := possible_fps }) :: rw.1,
        .lowTimeBase cfg.max_fps possible_fps :: rw.2)
    else ((i, .video s cfg) :: rw.1, rw.2)
  | (i, ProvCtx.audio s cfg) :: rest =>
    let rw := clampPass negTb rest
    ((i, .audio s cfg) :: rw.1, rw.2)

/-- Method `Editor.prepare_destination(source, dst_path)`: destination container
opening and codec negotiation are external; the function returns the context
map and the logged warnings. -/
def Editor.prepare_destination (es : List (SKey × Settings))
    (streams : List SrcStream) (negTb : Nat → ℚ) :
    List (Nat × ProvCtx) × List Warning :=
  let vw := filterStreams streams
  let ctxs := provisionAll es vw.1
  let cw := clampPass negTb ctxs
  (cw.1, vw.2 ++ cw.2)

/-! ## Editor.edit (editor.py lines 46-101)

The source container is modelled as the ordered list of its packets;
`seek_beginning` rewinds to the start of this list, and `source.demux(streams)`
yields the packets of the given streams in container order.  The per-stream
edit contexts (edit_context.py, outside the provided sources) are abstract:
`CtxSpec` is their capability set `{prepare_for_editing, is_done,
decode_edit_encode}`, modelled from the spec. -/

structure Packet where
  streamIdx : Nat
  dts : Int
  time_base : ℚ
deriving DecidableEq, Repr

/-- Abstract per-stream edit context interface over a context-state type. -/
structure CtxSpec (σ : Type) where
  is_done : σ → Bool
  prepare_for_editing : σ → σ × Bool
  decode_edit_encode : σ → Packet → σ × List Packet

/-- Timestamp of the first packet of stream `idx`
(`Real(first_pkt.dts * first_pkt.time_base)`, editor.py line 70); `none` when
the stream has no packets (Python's `next()` would raise StopIteration). -/
def firstPktTime (container : List Packet) (idx : Nat) : Option ℚ :=
  ((container.filter (fun p => p.streamIdx = idx)).head?).map
    (fun p => (p.dts : ℚ) * p.time_base)

/-- The first-packet probe loop (editor.py lines 66-70), in context-map
order; `none` when some stream has no packet (StopIteration). -/
def probeFirstPkts {σ : Type} (container : List Packet) :
    List (Nat × σ) → Option (List (Nat × ℚ))
  | [] => some []
  | e :: rest =>
    match firstPktTime container e.1 with
    | none => none
    | some q =>
      match probeFirstPkts container rest with
      | none => none
      | some fp => some ((e.1, q) :: fp)

/-- Ordering `sorted(first_pkts.items(), key=lambda kv: kv[1])` then the keys
(editor.py line 71).  Python's `sorted` is a stable sort by the timestamp
value; it is modelled by the (equally stable) insertion sort. -/
def streams_ordered (fp : List (Nat × ℚ)) : List Nat :=
  (List.insertionSort (fun a b => a.2 ≤ b.2) fp).map Prod.fst

/-- Selection `[idx for idx in streams_ordered if idx in valid_streams][0]`
(editor.py line 81); the indexing raises when no ordered stream is valid. -/
def first_ctx_choice (fp : List (Nat × ℚ)) (valid : List Nat) : Option Nat :=
  ((streams_ordered fp).filter (fun i => valid.contains i)).head?

/-- Test `all(ctx.is_done for ctx in ctx_map.values())` — over the WHOLE context
map, primed or not (editor.py line 90). -/
def allDone {σ : Type} (C : CtxSpec σ) (m : List (Nat × σ)) : Bool :=
  m.all (fun e => C.is_done e.2)

/-- The demultiplex loop (editor.py lines 84-91).  Returns the final context
map, the multiplexed destination packets, and the source packets left
undemultiplexed when the early stop fires.  A packet whose stream is not in
the map would raise a KeyError in Python; it cannot occur because the loop
only demuxes valid streams, and is skipped here. -/
def editLoop {σ : Type} (C : CtxSpec σ) :
    List (Nat × σ) → List Packet → List (Nat × σ) × List Packet × List Packet
  | m, [] => (m, [], [])
  | m, p :: rest =>
    match lookupA m p.streamIdx with
    | none => editLoop C m rest
    | some s =>
      if C.is_done s then editLoop C m rest
      else
        let so := C.decode_edit_encode s p
        let m2 := updateA m p.streamIdx so.1
        if allDone C m2 then (m2, so.2, rest)
        else
          let r := editLoop C m2 rest
          (r.1, so.2 ++ r.2.1, r.2.2)

/-- Modelled from the spec: the demultiplex loop as §4.4 step 5 words it,
terminating "once every ACTIVE context reports done" — the stopping test
ranges over the primed subset `active` only, not the whole context map.
Used to compare the implemented loop against the spec's description. -/
def editLoopActiveStop {σ : Type} (C : CtxSpec σ) (active : List Nat) :
    List (Nat × σ) → List Packet → List (Nat × σ) × List Packet × List Packet
  | m, [] => (m, [], [])
  | m, p :: rest =>
    match lookupA m p.streamIdx with
    | none => editLoopActiveStop C active m rest
    | some s =>
      if C.is_done s then editLoopActiveStop C active m rest
      else
        let so := C.decode_edit_encode s p
        let m2 := updateA m p.streamIdx so.1
        if (m2.filter (fun e => active.contains e.1)).all
            (fun e => C.is_done e.2) then (m2, so.2, rest)
        else
          let r := editLoopActiveStop C active m2 rest
          (r.1, so.2 ++ r.2.1, r.2.2)

/-- Observable outcome of one `Editor.edit` invocation. -/
structure EditResult (σ : Type) where
  firstSeek : Option Nat
  output : List Packet
  remaining : List Packet
  finalCtxs : List (Nat × σ)
  emptyWarning : Bool
  closedDest : Bool
  closedSource : Bool
deriving DecidableEq, Repr

/-- Result of `prepare_for_editing` applied to every provisioned context
(editor.py lines 74-77). -/
def primedMap {σ : Type} (C : CtxSpec σ) (ctxMap : List (Nat × σ)) :
    List (Nat × σ × Bool) :=
  ctxMap.map (fun e => (e.1, C.prepare_for_editing e.2))

/-- Indices of the contexts whose `prepare_for_editing` returned true
(`valid_streams`). -/
def activeIdx {σ : Type} (C : CtxSpec σ) (ctxMap : List (Nat × σ)) : List Nat :=
  ((primedMap C ctxMap).filter (fun e => e.2.2)).map Prod.fst

/-- Method `Editor.edit` (editor.py lines 46-101) over an already-provisioned
context map.  `flushPkts` stands for the packets produced by the final
encoder flush (line 94-95), which only runs when some stream was valid.
`none` models a raised exception (a stream with no packets makes the probe's
`next()` raise). -/
def Editor.edit {σ : Type} (C : CtxSpec σ) (container : List Packet)
    (ctxMap : List (Nat × σ)) (flushPkts : List Packet) :
    Option (EditResult σ) :=
  (probeFirstPkts container ctxMap).map (fun fp =>
    let primed := primedMap C ctxMap
    let valid := activeIdx C ctxMap
    let ctxMap2 := primed.map (fun e => (e.1, e.2.1))
    if valid.isEmpty then
      { firstSeek := none, output := [], remaining := [],
        finalCtxs := ctxMap2, emptyWarning := true,
        closedDest := true, closedSource := true }
    else
      let fc := first_ctx_choice fp valid
      let demuxed := container.filter (fun p => valid.contains p.streamIdx)
      let r := editLoop C ctxMap2 demuxed
      { firstSeek := fc, output := r.2.1 ++ flushPkts, remaining := r.2.2,
        finalCtxs := r.1, emptyWarning := false,
        closedDest := true, closedSource := true })

/-! ## sentence_segmentation (tokenization.py lines 65-147)

Transcript tokens enter with already-normalized text (`EditToken.__init__`'s
regex normalization is upstream of the claims).  spaCy's `doc.sents` is an
external collaborator; it is passed in as a list of character spans over the
joined transcript text. -/

def TOKEN_SEPARATOR : String := " "

def SENTENCE_SEPARATOR : String := "."

/-- A transcript token as handed to `sentence_segmentation`. -/
structure RawTok where
  text : String
  start_time : ℚ
  end_time : ℚ
deriving DecidableEq, Repr

/-- A token after step 0: separator appended, document position and index
assigned. -/
structure Tok where
  text : String
  start_time : ℚ
  end_time : ℚ
  start_pos : Int
  index : Nat
deriving DecidableEq, Repr

/-- A spaCy sentence span (`sent.start_char`, `sent.end_char`). -/
structure SentSpan where
  start_char : Int
  end_char : Int
deriving DecidableEq, Repr

/-- Step 0 (tokenization.py lines 74-82): append `TOKEN_SEPARATOR` to every
token but the last, assign cumulative `start_pos` and running `index`. -/
def stage0Go (pos : Int) (idx : Nat) : List RawTok → List Tok
  | [] => []
  | [t] => [⟨t.text, t.start_time, t.end_time, pos, idx⟩]
  | t :: t2 :: rest =>
    let txt := t.text ++ TOKEN_SEPARATOR
    ⟨txt, t.start_time, t.end_time, pos, idx⟩ ::
      stage0Go (pos + txt.length) (idx + 1) (t2 :: rest)

/-- Length of the joined document text `raw_transcript`. -/
def docLength (transcript : List RawTok) : Int :=
  ((stage0Go 0 0 transcript).map (fun t => (t.text.length : Int))).sum

/-- Step 1 (tokenization.py lines 93-108): assign tokens to the spaCy
sentences in order — a token joins the current sentence while it starts
before the sentence's end —, dropping sentences whose tokens were already
consumed.  Tokens left when the sentences run out are never assigned. -/
def assignLoop : List SentSpan → List Tok → List (List Tok)
  | [], _ => []
  | s :: rest, toks =>
    if (toks.takeWhile (fun t => decide (t.start_pos < s.end_char))).isEmpty then
      assignLoop rest (toks.dropWhile (fun t => decide (t.start_pos < s.end_char)))
    else
      toks.takeWhile (fun t => decide (t.start_pos < s.end_char)) ::
        assignLoop rest (toks.dropWhile (fun t => decide (t.start_pos < s.end_char)))

/-- Position (in `zip(sent, sent[1:])` terms, `prev_token_idx + 1`) of the
first inter-token silence longer than 3 seconds (tokenization.py line 117). -/
def findFirstGap : List Tok → Option Nat
  | a :: b :: rest =>
    if b.start_time - a.end_time > 3 then some 1
    else (findFirstGap (b :: rest)).map (fun i => i + 1)
  | _ => none

theorem findFirstGap_bounds (l : List Tok) (i : Nat)
    (h : findFirstGap l = some i) : 1 ≤ i ∧ i < l.length := by
  induction l generalizing i with
  | nil => simp [findFirstGap] at h
  | cons a tl ih =>
    cases tl with
    | nil => simp [findFirstGap] at h
    | cons b rest =>
      by_cases hgap : b.start_time - a.end_time > 3
      · simp only [findFirstGap, if_pos hgap, Option.some.injEq] at h
        subst h
        refine ⟨le_refl 1, ?_⟩
        simp only [List.length_cons]
        omega
      · simp only [findFirstGap, if_neg hgap, Option.map_eq_some'] at h
        rcases h with ⟨j, hj, rfl⟩
        have hb := ih j hj
        simp only [List.length_cons] at hb ⊢
        omega

/-- Step 2 (tokenization.py lines 111-123): the in-place insert loop splits a
sentence at its first long gap and then continues with the inserted suffix,
so each sentence ends up split at every long gap.  `fuel` bounds the number
of splits; since every split consumes at least one token, the sentence
length used by `splitOneSent` always suffices. -/
def splitOneSentGo : Nat → List Tok → List (List Tok)
  | 0, sent => [sent]
  | fuel + 1, sent =>
    match findFirstGap sent with
    | none => [sent]
    | some i => sent.take i :: splitOneSentGo fuel (sent.drop i)

def splitOneSent (sent : List Tok) : List (List Tok) :=
  splitOneSentGo sent.length sent

/-- Shift a token's document position by the accumulated separator
length difference (`token.start_pos += pos_diff`). -/
def shiftTok (d : Int) (t : Tok) : Tok := { t with start_pos := t.start_pos + d }

/-- Body of the `if sent[-1].text[-1:] != '.'` block of step 3
(tokenization.py lines 129-143): rewrite the trailing alternative separator
and the trailing token separator into a sentence separator, tracking the text
length difference.  The final `else` branch is the source's
`assert ...endswith(SENTENCE_SEPARATOR)`, which cannot fire because every
token of a non-final sentence carries a trailing `TOKEN_SEPARATOR`. -/
def fixTail (t : Tok) : Tok × Int :=
  let alt := "," ++ TOKEN_SEPARATOR
  let p1 : String × Int :=
    if strEndsWith t.text alt then
      (t.text.dropRight alt.length ++ SENTENCE_SEPARATOR,
        (SENTENCE_SEPARATOR.length : Int) - alt.length)
    else (t.text, 0)
  let p2 : String × Int :=
    if strEndsWith p1.1 (SENTENCE_SEPARATOR ++ TOKEN_SEPARATOR) then
      (p1.1.dropRight TOKEN_SEPARATOR.length, p1.2 - TOKEN_SEPARATOR.length)
    else if strEndsWith p1.1 TOKEN_SEPARATOR then
      (p1.1.dropRight TOKEN_SEPARATOR.length ++ SENTENCE_SEPARATOR,
        p1.2 + SENTENCE_SEPARATOR.length - TOKEN_SEPARATOR.length)
    else (p1.1, p1.2)
  ({ t with text := p2.1 }, p2.2)

/-- Step 3 (tokenization.py lines 126-145): for each adjacent pair of
sentences, terminate the first one with a sentence separator and shift the
next one's positions by the accumulated difference.  `cur` is the sentence
currently paired with its successor.  An empty sentence would raise an
IndexError at `sent[-1]` in Python; sentences are never empty at this
point. -/
def stage3Go (posDiff : Int) (cur : List Tok) : List (List Tok) → List (List Tok)
  | [] => [cur]
  | next :: rest =>
    match cur.getLast? with
    | none => cur :: stage3Go posDiff next rest
    | some lt =>
      if strEndsWith lt.text SENTENCE_SEPARATOR then
        cur :: stage3Go posDiff next rest
      else
        let td := fixTail lt
        let pd2 := posDiff + td.2
        let next2 := next.map (shiftTok pd2)
        (cur.dropLast ++ [td.1]) :: stage3Go pd2 next2 rest

def stage3 : List (List Tok) → List (List Tok)
  | [] => []
  | s :: rest => stage3Go 0 s rest

/-- Function `sentence_segmentation(transcript)` (tokenization.py lines 65-147),
parametrised by spaCy's sentence spans.  `none` models a raised exception:
the unconditional `transcript[0]` on an empty transcript, the
`nlp_sents[0]` access when spaCy returns no sentences, and the
`assert nlp_sents[0].start_char == 0`. -/
def sentence_segmentation (sents : List SentSpan) (transcript : List RawTok) :
    Option (List (List Tok)) :=
  match transcript with
  | [] => none
  | _ :: _ =>
    let toks := stage0Go 0 0 transcript
    match sents with
    | [] => none
    | s0 :: _ =>
      if s0.start_char = 0 then
        some (stage3 ((assignLoop sents toks).flatMap splitOneSent))
      else none

/-! ## C1 — settings precedence in prepare_destination -/

theorem lookupA_eq_none {α β : Type} [DecidableEq α] (l : List (α × β)) (a : α)
    (h : a ∉ l.map Prod.fst) : lookupA l a = none := by
  induction l with
  | nil => rfl
  | cons hd tl ih =>
    simp only [List.map_cons, List.mem_cons] at h
    push_neg at h
    have h1 : ¬hd.1 = a := fun hh => h.1 hh.symm
    simp [lookupA, h1, ih h.2]

/-- Looking a key up in a type-settings dict updated by an index-settings dict
(`d = type.copy(); d.update(idx)`) finds the index binding first. -/
theorem lookupA_mergeSettings (typeS idxS : Settings) (k : String)
    (hnd : (idxS.map Prod.fst).Nodup) :
    lookupA (mergeSettings typeS idxS) k =
      match lookupA idxS k with
      | some v => some v
      | none => lookupA typeS k := by
  induction idxS generalizing typeS with
  | nil => simp [mergeSettings, lookupA]
  | cons hd tl ih =>
    rcases hd with ⟨k0, v0⟩
    simp only [List.map_cons, List.nodup_cons] at hnd
    have hrec := ih (updateA typeS k0 v0) hnd.2
    simp only [mergeSettings, List.foldl_cons] at hrec ⊢
    rw [hrec]
    by_cases hk : k0 = k
    · subst hk
      have hnone : lookupA tl k0 = none := lookupA_eq_none tl k0 hnd.1
      simp [hnone, lookupA, lookupA_updateA]
    · cases hl : lookupA tl k with
      | some v => simp [lookupA, hl, hk]
      | none =>
        have hkk : ¬k = k0 := fun h => hk h.symm
        simp [lookupA, hl, hk, hkk, lookupA_updateA]

/-- The precedence chain as the spec words it: per-stream-index override,
else per-stream-type override, else the source-derived default. -/
def resolve3 (idxS typeS : Settings) (key : String) (dflt : JVal) : JVal :=
  match lookupA idxS key with
  | some v => v
  | none =>
    match lookupA typeS key with
    | some v => v
    | none => dflt

theorem resolvedSetting_precedence (typeS idxS : Settings) (k : String) (d : JVal)
    (hnd : (idxS.map Prod.fst).Nodup) :
    resolvedSetting (mergeSettings typeS idxS) k d = resolve3 idxS typeS k d := by
  unfold resolvedSetting resolve3
  rw [lookupA_mergeSettings typeS idxS k hnd]
  cases lookupA idxS k with
  | some v => rfl
  | none => cases lookupA typeS k <;> rfl

/-- C1: every setting resolved by prepare_destination (codec, codec options,
bitrate, resolution, max-fps, sample-rate, mono) is taken from the
per-stream-index settings when the key is present there, otherwise from the
per-stream-type settings when present there, otherwise from the source
stream's own value (for mono: the absent default False keeps the source
channel count). -/
theorem prepare_destination_settings_precedence
    (es : List (SKey × Settings)) (s : SrcStream)
    (hnd : ((((lookupA es (SKey.sidx s.index)).getD []) : Settings).map
      Prod.fst).Nodup) :
    (s.type = ID_VIDEO_STREAM →
      provisionStream es s = some (.video s
        { codec := resolve3 ((lookupA es (SKey.sidx s.index)).getD [])
            ((lookupA es (SKey.stype s.type)).getD []) ID_CODEC (.vstr s.codecName)
          codec_options := resolve3 ((lookupA es (SKey.sidx s.index)).getD [])
            ((lookupA es (SKey.stype s.type)).getD []) ID_CODEC_OPTIONS
            (.vobj s.codecOptions)
          bitrate := resolve3 ((lookupA es (SKey.sidx s.index)).getD [])
            ((lookupA es (SKey.stype s.type)).getD []) ID_BITRATE
            (.vnum (s.bit_rate : ℚ))
          resolution := resolve3 ((lookupA es (SKey.sidx s.index)).getD [])
            ((lookupA es (SKey.stype s.type)).getD []) ID_RESOLUTION
            (.vnumarr [(s.width : ℚ), (s.height : ℚ)])
          max_fps := pyFraction (resolve3 ((lookupA es (SKey.sidx s.index)).getD [])
            ((lookupA es (SKey.stype s.type)).getD []) ID_MAX_FPS
            (.vnum s.guessed_rate)) })) ∧
    (s.type = ID_AUDIO_STREAM →
      provisionStream es s = some (.audio s
        { codec := resolve3 ((lookupA es (SKey.sidx s.index)).getD [])
            ((lookupA es (SKey.stype s.type)).getD []) ID_CODEC (.vstr s.codecName)
          codec_options := resolve3 ((lookupA es (SKey.sidx s.index)).getD [])
            ((lookupA es (SKey.stype s.type)).getD []) ID_CODEC_OPTIONS
            (.vobj s.codecOptions)
          bitrate := resolve3 ((lookupA es (SKey.sidx s.index)).getD [])
            ((lookupA es (SKey.stype s.type)).getD []) ID_BITRATE
            (.vnum (s.bit_rate : ℚ))
          sample_rate := resolve3 ((lookupA es (SKey.sidx s.index)).getD [])
            ((lookupA es (SKey.stype s.type)).getD []) ID_SAMPLE_RATE
            (.vnum (s.sample_rate : ℚ))
          channels :=
            if pyBool (resolve3 ((lookupA es (SKey.sidx s.index)).getD [])
                ((lookupA es (SKey.stype s.type)).getD []) ID_MONO (.vbool false))
            then 1 else s.channels })) := by
  constructor
  · intro hv
    have hva : ¬s.type = ID_AUDIO_STREAM := by
      rw [hv]; decide
    simp [provisionStream, hv,
      resolvedSetting_precedence _ _ _ _ hnd]
  · intro ha
    have hav : ¬s.type = ID_VIDEO_STREAM := by
      rw [ha]; decide
    simp [provisionStream, ha, hav,
      resolvedSetting_precedence _ _ _ _ hnd]
    decide

/-- A sample video source stream used by concrete instantiations. -/
def sampleVideoStream : SrcStream :=
  { index := 0, type := ID_VIDEO_STREAM, hasDecoder := true,
    codecName := "h264", codecOptions := [], bit_rate := 1000,
    width := 640, height := 480, guessed_rate := 30,
    sample_rate := 0, channels := 0 }

/-- Sample editor settings with a type-level and an index-level override. -/
def sampleSettings : List (SKey × Settings) :=
  [(.stype ID_VIDEO_STREAM, [(ID_BITRATE, .vnum 7), (ID_CODEC, .vstr "vp9")]),
   (.sidx 0, [(ID_BITRATE, .vnum 9)])]

theorem prepare_destination_settings_precedence_witness :
    ((((lookupA sampleSettings (SKey.sidx sampleVideoStream.index)).getD [])
        : Settings).map Prod.fst).Nodup ∧
    provisionStream sampleSettings sampleVideoStream = some (.video sampleVideoStream
      { codec := .vstr "vp9", codec_options := .vobj [], bitrate := .vnum 9,
        resolution := .vnumarr [640, 480], max_fps := 30 }) := by
  constructor
  · decide
  · have h := (prepare_destination_settings_precedence sampleSettings
      sampleVideoStream (by decide)).1 (by decide)
    rw [h]
    decide

/-! ## C8 — ineligible streams are skipped with a warning, the rest proceed -/

theorem filterStreams_valid (streams : List SrcStream) :
    (filterStreams streams).1 =
      streams.filter (fun s => SUPPORTED_STREAM_TYPES.contains s.type &&
        s.hasDecoder) := by
  induction streams with
  | nil => rfl
  | cons s rest ih =>
    by_cases ht : s.type ∈ SUPPORTED_STREAM_TYPES <;>
      by_cases hd : s.hasDecoder <;>
        simp [filterStreams, List.filter_cons, ht, hd, ih]

theorem filterStreams_warns (streams : List SrcStream) :
    ∀ s ∈ streams,
      (s.type ∉ SUPPORTED_STREAM_TYPES →
        Warning.unsupportedType s.index s.type ∈ (filterStreams streams).2) ∧
      (s.type ∈ SUPPORTED_STREAM_TYPES → ¬s.hasDecoder →
        Warning.noDecoder s.index ∈ (filterStreams streams).2) := by
  induction streams with
  | nil => intro s hs; cases hs
  | cons a rest ih =>
    intro s hs
    rcases List.mem_cons.mp hs with rfl | hmem
    · constructor
      · intro ht
        simp [filterStreams, ht]
      · intro ht hd
        simp [filterStreams, ht, hd]
    · constructor
      · intro ht
        have := (ih s hmem).1 ht
        by_cases hta : a.type ∈ SUPPORTED_STREAM_TYPES <;>
          by_cases hda : a.hasDecoder <;>
            simp [filterStreams, hta, hda, this]
      · intro ht hd
        have := (ih s hmem).2 ht hd
        by_cases hta : a.type ∈ SUPPORTED_STREAM_TYPES <;>
          by_cases hda : a.hasDecoder <;>
            simp [filterStreams, hta, hda, this]

theorem provisionStream_isSome (es : List (SKey × Settings)) (s : SrcStream)
    (h : s.type ∈ SUPPORTED_STREAM_TYPES) :
    (provisionStream es s).isSome := by
  have hor : s.type = ID_VIDEO_STREAM ∨ s.type = ID_AUDIO_STREAM := by
    simpa [SUPPORTED_STREAM_TYPES] using h
  rcases hor with hv | ha
  · simp [provisionStream, hv]
  · have hav : ¬s.type = ID_VIDEO_STREAM := by
      rw [ha]; decide
    have hne : ¬(ID_AUDIO_STREAM = ID_VIDEO_STREAM) := by decide
    simp [provisionStream, ha, hav, hne]

theorem provisionAll_map_fst (es : List (SKey × Settings))
    (streams : List SrcStream)
    (h : ∀ s ∈ streams, (provisionStream es s).isSome) :
    (provisionAll es streams).map Prod.fst = streams.map SrcStream.index := by
  induction streams with
  | nil => rfl
  | cons s rest ih =>
    have hs := h s (List.mem_cons_self s rest)
    rcases ho : provisionStream es s with _ | c
    · rw [ho] at hs; simp at hs
    · simp [provisionAll, List.filterMap_cons, ho]
      exact ih (fun t ht => h t (List.mem_cons_of_mem s ht))

theorem clampPass_map_fst (negTb : Nat → ℚ) (l : List (Nat × ProvCtx)) :
    (clampPass negTb l).1.map Prod.fst = l.map Prod.fst := by
  induction l with
  | nil => rfl
  | cons p rest ih =>
    rcases p with ⟨i, c⟩
    cases c with
    | video s cfg =>
      by_cases hc : (negTb i)⁻¹ < cfg.max_fps <;>
        simp [clampPass, one_div, hc, ih]
    | audio s cfg => simp [clampPass, ih]

/-- C8: prepare_destination provisions exactly the streams of a supported
type that have a decoder; every other stream is skipped with the matching
warning diagnostic, and provisioning of the eligible streams still goes
through (stream-level failures are non-fatal). -/
theorem prepare_destination_skips_ineligible
    (es : List (SKey × Settings)) (streams : List SrcStream) (negTb : Nat → ℚ) :
    ((Editor.prepare_destination es streams negTb).1.map Prod.fst =
      (streams.filter (fun s => SUPPORTED_STREAM_TYPES.contains s.type &&
        s.hasDecoder)).map SrcStream.index) ∧
    (∀ s ∈ streams, s.type ∉ SUPPORTED_STREAM_TYPES →
      Warning.unsupportedType s.index s.type ∈
        (Editor.prepare_destination es streams negTb).2) ∧
    (∀ s ∈ streams, s.type ∈ SUPPORTED_STREAM_TYPES → ¬s.hasDecoder →
      Warning.noDecoder s.index ∈
        (Editor.prepare_destination es streams negTb).2) := by
  refine ⟨?_, ?_, ?_⟩
  · show ((clampPass negTb (provisionAll es (filterStreams streams).1)).1.map
      Prod.fst) = _
    rw [clampPass_map_fst, provisionAll_map_fst, filterStreams_valid]
    intro s hs
    rw [filterStreams_valid] at hs
    have hps := List.of_mem_filter hs
    have hmem : s.type ∈ SUPPORTED_STREAM_TYPES := by
      have := ((Bool.and_eq_true _ _).mp hps).1
      simpa using this
    exact provisionStream_isSome es s hmem
  · intro s hs ht
    have := (filterStreams_warns streams s hs).1 ht
    exact List.mem_append_left _ this
  · intro s hs ht hd
    have := (filterStreams_warns streams s hs).2 ht hd
    exact List.mem_append_left _ this

/-- A sample subtitle stream (unsupported type). -/
def sampleSubStream : SrcStream :=
  { index := 1, type := "subtitle", hasDecoder := true,
    codecName := "srt", codecOptions := [], bit_rate := 0,
    width := 0, height := 0, guessed_rate := 0,
    sample_rate := 0, channels := 0 }

theorem prepare_destination_skips_ineligible_witness :
    ((Editor.prepare_destination [] [sampleVideoStream, sampleSubStream]
        (fun _ => 1 / 60000)).1.map Prod.fst = [0]) ∧
    Warning.unsupportedType 1 "subtitle" ∈
      (Editor.prepare_destination [] [sampleVideoStream, sampleSubStream]
        (fun _ => 1 / 60000)).2 := by
  have h := prepare_destination_skips_ineligible []
    [sampleVideoStream, sampleSubStream] (fun _ => 1 / 60000)
  refine ⟨?_, ?_⟩
  · rw [h.1]; decide
  · exact h.2.1 sampleSubStream (by decide) (by decide)

/-! ## C6 — max-fps clamped to the negotiated time base, with a warning -/

theorem clampPass_bound (negTb : Nat → ℚ) (l : List (Nat × ProvCtx)) :
    ∀ p ∈ (clampPass negTb l).1, ∀ s cfg, p.2 = ProvCtx.video s cfg →
      cfg.max_fps ≤ 1 / negTb p.1 := by
  induction l with
  | nil => intro p hp; cases hp
  | cons q rest ih =>
    rcases q with ⟨i, c⟩
    intro p hp s cfg hpc
    cases c with
    | video s0 cfg0 =>
      by_cases hc : 1 / negTb i < cfg0.max_fps
      · simp only [clampPass, if_pos hc] at hp
        rcases List.mem_cons.mp hp with rfl | hmem
        · simp only at hpc
          injection hpc with h1 h2
          subst h1
          rw [← h2]
        · exact ih p hmem s cfg hpc
      · simp only [clampPass, if_neg hc] at hp
        rcases List.mem_cons.mp hp with rfl | hmem
        · simp only at hpc
          injection hpc with h1 h2
          subst h1
          rw [← h2]
          exact le_of_not_lt hc
        · exact ih p hmem s cfg hpc
    | audio s0 cfg0 =>
      simp only [clampPass] at hp
      rcases List.mem_cons.mp hp with rfl | hmem
      · simp at hpc
      · exact ih p hmem s cfg hpc

theorem clampPass_clamps (negTb : Nat → ℚ) (l : List (Nat × ProvCtx)) :
    ∀ p ∈ l, ∀ s cfg, p.2 = ProvCtx.video s cfg →
      1 / negTb p.1 < cfg.max_fps →
      Warning.lowTimeBase cfg.max_fps (1 / negTb p.1) ∈ (clampPass negTb l).2 ∧
      (p.1, ProvCtx.video s { cfg with max_fps := 1 / negTb p.1 }) ∈
        (clampPass negTb l).1 := by
  induction l with
  | nil => intro p hp; cases hp
  | cons q rest ih =>
    rcases q with ⟨i, c⟩
    intro p hp s cfg hpc hlt
    rcases List.mem_cons.mp hp with rfl | hmem
    · simp only at hpc
      subst hpc
      simp only [one_div] at hlt
      simp [clampPass, one_div, if_pos hlt]
    · have hih := ih p hmem s cfg hpc hlt
      simp only [one_div] at hih
      cases c with
      | video s0 cfg0 =>
        by_cases hc : (negTb i)⁻¹ < cfg0.max_fps <;>
          simp [clampPass, one_div, hc, hih.1, hih.2]
      | audio s0 cfg0 => simp [clampPass, one_div, hih.1, hih.2]

/-- C6: after prepare_destination, every provisioned video context has
max_fps at most the rate the negotiated destination time base can represent;
when a context's configured max_fps exceeds that rate it is clamped exactly
to it and the low-time-base warning is emitted, while the context is still
provisioned (recoverable degradation). -/
theorem video_max_fps_clamped (es : List (SKey × Settings))
    (streams : List SrcStream) (negTb : Nat → ℚ)
    (hpos : ∀ i, 0 < negTb i) :
    (∀ p ∈ (Editor.prepare_destination es streams negTb).1,
      ∀ s cfg, p.2 = ProvCtx.video s cfg → cfg.max_fps ≤ 1 / negTb p.1) ∧
    (∀ p ∈ provisionAll es (filterStreams streams).1,
      ∀ s cfg, p.2 = ProvCtx.video s cfg → 1 / negTb p.1 < cfg.max_fps →
        Warning.lowTimeBase cfg.max_fps (1 / negTb p.1) ∈
          (Editor.prepare_destination es streams negTb).2 ∧
        (p.1, ProvCtx.video s { cfg with max_fps := 1 / negTb p.1 }) ∈
          (Editor.prepare_destination es streams negTb).1) := by
  constructor
  · intro p hp s cfg hpc
    exact clampPass_bound negTb _ p hp s cfg hpc
  · intro p hp s cfg hpc hlt
    have h := clampPass_clamps negTb
      (provisionAll es (filterStreams streams).1) p hp s cfg hpc hlt
    exact ⟨List.mem_append_right _ h.1, h.2⟩

/-- Sample index-level settings requesting 120 fps for stream 0. -/
def sampleFpsSettings : List (SKey × Settings) :=
  [(.sidx 0, [(ID_MAX_FPS, .vnum 120)])]

theorem video_max_fps_clamped_witness :
    (0 : ℚ) < (fun _ : Nat => (1 : ℚ) / 100) 0 ∧
    (∀ p ∈ (Editor.prepare_destination sampleFpsSettings [sampleVideoStream]
        (fun _ => (1 : ℚ) / 100)).1,
      ∀ s cfg, p.2 = ProvCtx.video s cfg →
        cfg.max_fps ≤ 1 / (fun _ : Nat => (1 : ℚ) / 100) p.1) := by
  constructor
  · norm_num
  · exact (video_max_fps_clamped sampleFpsSettings [sampleVideoStream]
      (fun _ => (1 : ℚ) / 100) (fun _ => by norm_num)).1

/-! ## C4 — skipping done contexts; the early stop tests ALL contexts -/

/-- C4 amended: in the demultiplex loop a packet whose context already
reports done is skipped without being routed to it, and the loop stops right
after the packet that makes every context of the WHOLE provisioned map
(primed or not) report done, leaving the rest of the source packets
undemultiplexed. -/
theorem editLoop_skips_done_and_stops_when_all_done {σ : Type} (C : CtxSpec σ)
    (m : List (Nat × σ)) (p : Packet) (rest : List Packet) (s : σ)
    (hs : lookupA m p.streamIdx = some s) :
    (C.is_done s = true → editLoop C m (p :: rest) = editLoop C m rest) ∧
    (C.is_done s = false →
      allDone C (updateA m p.streamIdx (C.decode_edit_encode s p).1) = true →
      editLoop C m (p :: rest) =
        (updateA m p.streamIdx (C.decode_edit_encode s p).1,
         (C.decode_edit_encode s p).2, rest)) := by
  constructor
  · intro hdone
    simp [editLoop, hs, hdone]
  · intro hdone hall
    simp [editLoop, hs, hdone, hall]

/-- A two-state context that reports done after its first packet and
produces no output; its `prepare_for_editing` declines (returns false), and
its `done` flag starts out false, as the spec's state machine prescribes for
an unprimed context. -/
def oneShotCtx : CtxSpec Bool :=
  { is_done := fun s => s
    prepare_for_editing := fun s => (s, false)
    decode_edit_encode := fun _ _ => (true, []) }

theorem editLoop_skips_done_and_stops_when_all_done_witness :
    (oneShotCtx.is_done true = true →
      editLoop oneShotCtx [(0, true)] [⟨0, 0, 1⟩] =
        editLoop oneShotCtx [(0, true)] []) ∧
    (oneShotCtx.is_done true = false →
      allDone oneShotCtx (updateA [(0, true)] 0
        (oneShotCtx.decode_edit_encode true ⟨0, 0, 1⟩).1) = true →
      editLoop oneShotCtx [(0, true)] [⟨0, 0, 1⟩] =
        (updateA [(0, true)] 0 (oneShotCtx.decode_edit_encode true ⟨0, 0, 1⟩).1,
         (oneShotCtx.decode_edit_encode true ⟨0, 0, 1⟩).2, [])) :=
  editLoop_skips_done_and_stops_when_all_done oneShotCtx [(0, true)]
    ⟨0, 0, 1⟩ [] true (by decide)

/-- C4 counterexample: with context 0 active (done after one packet) and
context 1 unprimed (never done), every active context is done after the
first packet, yet the implemented loop — whose stop condition ranges over
the whole context map — keeps demultiplexing and consumes the remaining
packet, unlike the loop the claim describes, which stops with that packet
still undemultiplexed. -/
theorem editLoop_stop_counterexample :
    (editLoop oneShotCtx [(0, false), (1, false)]
      [⟨0, 0, 1⟩, ⟨0, 1, 1⟩]).2.2 = [] ∧
    (editLoopActiveStop oneShotCtx [0] [(0, false), (1, false)]
      [⟨0, 0, 1⟩, ⟨0, 1, 1⟩]).2.2 = [⟨0, 1, 1⟩] ∧
    editLoop oneShotCtx [(0, false), (1, false)] [⟨0, 0, 1⟩, ⟨0, 1, 1⟩] ≠
      editLoopActiveStop oneShotCtx [0] [(0, false), (1, false)]
        [⟨0, 0, 1⟩, ⟨0, 1, 1⟩] := by
  refine ⟨by decide, by decide, by decide⟩

/-! ## C7 — empty active subset: warning, no output, normal return -/

/-- C7: when no context's prepare_for_editing returns true, edit logs the
empty-result warning, performs no demultiplexing or multiplexing (no output
packets, contexts only primed), and still closes both containers and returns
normally. -/
theorem edit_empty_active_subset {σ : Type} (C : CtxSpec σ)
    (container : List Packet) (ctxMap : List (Nat × σ))
    (flushPkts : List Packet) (fp : List (Nat × ℚ))
    (hp : probeFirstPkts container ctxMap = some fp)
    (hnone : ∀ e ∈ ctxMap, (C.prepare_for_editing e.2).2 = false) :
    Editor.edit C container ctxMap flushPkts = some
      { firstSeek := none, output := [], remaining := [],
        finalCtxs := (primedMap C ctxMap).map (fun e => (e.1, e.2.1)),
        emptyWarning := true, closedDest := true, closedSource := true } := by
  have hvalid : activeIdx C ctxMap = [] := by
    rw [activeIdx, List.filter_eq_nil_iff.mpr, List.map_nil]
    intro e he
    rcases List.mem_map.mp he with ⟨a, ha, rfl⟩
    simpa using hnone a ha
  unfold Editor.edit
  rw [hp]
  simp [hvalid]

theorem edit_empty_active_subset_witness :
    probeFirstPkts [Packet.mk 0 0 1] [(0, false)] = some [(0, 0)] ∧
    Editor.edit oneShotCtx [Packet.mk 0 0 1] [(0, false)] [] = some
      { firstSeek := none, output := [], remaining := [],
        finalCtxs := (primedMap oneShotCtx [(0, false)]).map
          (fun e => (e.1, e.2.1)),
        emptyWarning := true, closedDest := true, closedSource := true } := by
  have hp : probeFirstPkts [Packet.mk 0 0 1] [(0, false)] = some [(0, 0)] := by
    simp [probeFirstPkts, firstPktTime]
  exact ⟨hp,
    edit_empty_active_subset oneShotCtx [Packet.mk 0 0 1] [(0, false)] []
      [(0, 0)] hp (by decide)⟩

/-! ## C5 — which stream the pre-loop re-seek targets -/

theorem head_filter_sorted_min (p : Nat → Bool) (sl : List (Nat × ℚ)) (x : Nat)
    (hsort : List.Pairwise (fun a b : Nat × ℚ => a.2 ≤ b.2) sl)
    (hnd : (sl.map Prod.fst).Nodup)
    (hx : ((sl.map Prod.fst).filter p).head? = some x) :
    p x = true ∧ ∀ qx, (x, qx) ∈ sl → ∀ e ∈ sl, p e.1 = true → qx ≤ e.2 := by
  induction sl with
  | nil => simp at hx
  | cons a tl ih =>
    rw [List.pairwise_cons] at hsort
    simp only [List.map_cons, List.nodup_cons] at hnd
    cases hpa : p a.1 with
    | true =>
      have hxa : x = a.1 := by
        simp only [List.map_cons, List.filter_cons, hpa] at hx
        simpa using hx.symm
      subst hxa
      refine ⟨hpa, ?_⟩
      intro qx hqx e he hpe
      have hqa : qx = a.2 := by
        rcases List.mem_cons.mp hqx with heq | hmem
        · exact congrArg Prod.snd heq
        · exact absurd (List.mem_map.mpr ⟨_, hmem, rfl⟩) hnd.1
      subst hqa
      rcases List.mem_cons.mp he with rfl | hmem
      · exact le_refl _
      · exact hsort.1 e hmem
    | false =>
      have hx2 : ((tl.map Prod.fst).filter p).head? = some x := by
        simpa [List.filter_cons, hpa] using hx
      have hih := ih hsort.2 hnd.2 hx2
      refine ⟨hih.1, ?_⟩
      intro qx hqx e he hpe
      have hqmem : (x, qx) ∈ tl := by
        rcases List.mem_cons.mp hqx with heq | hmem
        · exfalso
          have : p a.1 = true := by
            rw [show a.1 = x from congrArg Prod.fst heq.symm ▸ rfl]
            exact hih.1
          simp [hpa] at this
        · exact hmem
      rcases List.mem_cons.mp he with rfl | hmem
      · exfalso; simp [hpa] at hpe
      · exact hih.2 qx hqmem e hmem hpe

theorem probeFirstPkts_spec {σ : Type} (container : List Packet)
    (m : List (Nat × σ)) (fp : List (Nat × ℚ))
    (h : probeFirstPkts container m = some fp) :
    fp.map Prod.fst = m.map Prod.fst ∧
    ∀ e ∈ fp, firstPktTime container e.1 = some e.2 := by
  induction m generalizing fp with
  | nil =>
    simp only [probeFirstPkts, Option.some.injEq] at h
    subst h
    exact ⟨rfl, by intro e he; cases he⟩
  | cons a rest ih =>
    simp only [probeFirstPkts] at h
    cases hft : firstPktTime container a.1 with
    | none => rw [hft] at h; cases h
    | some q =>
      rw [hft] at h
      cases hrec : probeFirstPkts container rest with
      | none =>
        rw [hrec] at h; cases h
      | some fp2 =>
        rw [hrec] at h
        injection h with h
        subst h
        have hih := ih fp2 hrec
        refine ⟨by simp [hih.1], ?_⟩
        intro e he
        rcases List.mem_cons.mp he with rfl | hmem
        · exact hft
        · exact hih.2 e hmem

theorem first_ctx_choice_min (fp : List (Nat × ℚ)) (valid : List Nat) (i : Nat)
    (hnd : (fp.map Prod.fst).Nodup)
    (hi : first_ctx_choice fp valid = some i) :
    valid.contains i = true ∧
    ∀ qi, (i, qi) ∈ fp → ∀ e ∈ fp, valid.contains e.1 = true → qi ≤ e.2 := by
  haveI : IsTotal (Nat × ℚ) (fun a b => a.2 ≤ b.2) :=
    ⟨fun a b => le_total a.2 b.2⟩
  haveI : IsTrans (Nat × ℚ) (fun a b => a.2 ≤ b.2) :=
    ⟨fun _ _ _ h1 h2 => le_trans h1 h2⟩
  have hperm := List.perm_insertionSort (fun a b : Nat × ℚ => a.2 ≤ b.2) fp
  have hsort := List.sorted_insertionSort (fun a b : Nat × ℚ => a.2 ≤ b.2) fp
  have hndsl : ((List.insertionSort (fun a b : Nat × ℚ => a.2 ≤ b.2) fp).map
      Prod.fst).Nodup := ((hperm.map Prod.fst).nodup_iff).mpr hnd
  have h := head_filter_sorted_min (fun n => valid.contains n)
    (List.insertionSort (fun a b : Nat × ℚ => a.2 ≤ b.2) fp) i hsort hndsl hi
  refine ⟨h.1, ?_⟩
  intro qi hqi e he hpe
  exact h.2 qi (hperm.mem_iff.mpr hqi) e (hperm.mem_iff.mpr he) hpe

theorem activeIdx_subset {σ : Type} (C : CtxSpec σ) (m : List (Nat × σ)) :
    ∀ j ∈ activeIdx C m, j ∈ m.map Prod.fst := by
  intro j hj
  unfold activeIdx primedMap at hj
  rcases List.mem_map.mp hj with ⟨e, he, rfl⟩
  have hmem := List.mem_of_mem_filter he
  rcases List.mem_map.mp hmem with ⟨a, ha, rfl⟩
  exact List.mem_map.mpr ⟨a, ha, rfl⟩

/-- C5 amended: the single re-seek-to-start before the demultiplex loop goes
to the ACTIVE stream (prepare_for_editing returned true) whose first packet
has the earliest probed timestamp — not the earliest among all provisioned
streams, which may be inactive and is then passed over. -/
theorem edit_reseeks_earliest_active {σ : Type} (C : CtxSpec σ)
    (container : List Packet) (ctxMap : List (Nat × σ))
    (flushPkts : List Packet) (r : EditResult σ) (i : Nat)
    (hnd : (ctxMap.map Prod.fst).Nodup)
    (hr : Editor.edit C container ctxMap flushPkts = some r)
    (hi : r.firstSeek = some i) :
    i ∈ activeIdx C ctxMap ∧
    ∀ j ∈ activeIdx C ctxMap, ∀ qi qj,
      firstPktTime container i = some qi →
      firstPktTime container j = some qj → qi ≤ qj := by
  unfold Editor.edit at hr
  rcases Option.map_eq_some'.mp hr with ⟨fp, hfp, hgr⟩
  have hspec := probeFirstPkts_spec container ctxMap fp hfp
  have hndfp : (fp.map Prod.fst).Nodup := by rw [hspec.1]; exact hnd
  by_cases hv : (activeIdx C ctxMap).isEmpty
  · rw [← hgr] at hi
    simp [hv] at hi
  · have hfc : first_ctx_choice fp (activeIdx C ctxMap) = some i := by
      rw [← hgr] at hi
      simpa [hv] using hi
    have hmin := first_ctx_choice_min fp (activeIdx C ctxMap) i hndfp hfc
    have hkey : ∀ k, k ∈ activeIdx C ctxMap → ∃ q, (k, q) ∈ fp := by
      intro k hk
      have : k ∈ fp.map Prod.fst := by
        rw [hspec.1]
        exact activeIdx_subset C ctxMap k hk
      rcases List.mem_map.mp this with ⟨e, he, rfl⟩
      exact ⟨e.2, he⟩
    have himem : i ∈ activeIdx C ctxMap := by
      have := hmin.1
      simpa using this
    refine ⟨himem, ?_⟩
    intro j hj qi qj hqi hqj
    rcases hkey i himem with ⟨qi0, hqi0⟩
    rcases hkey j hj with ⟨qj0, hqj0⟩
    have hqie : qi0 = qi := by
      have h2 := hspec.2 (i, qi0) hqi0
      rw [hqi] at h2
      injection h2 with h3
      exact h3.symm
    have hqje : qj0 = qj := by
      have h2 := hspec.2 (j, qj0) hqj0
      rw [hqj] at h2
      injection h2 with h3
      exact h3.symm
    rw [hqie] at hqi0
    rw [hqje] at hqj0
    exact hmin.2 qi hqi0 (j, qj) hqj0 (by simpa using hj)

/-- A per-stream context over state `Nat` that primes only the context whose
state is 1 and never reports done (the unprimed context's done flag stays
false, as the spec's state machine prescribes). -/
def inertOrActiveCtx : CtxSpec Nat :=
  { is_done := fun _ => false
    prepare_for_editing := fun s => (s, s == 1)
    decode_edit_encode := fun s _ => (s, []) }

/-- C5 counterexample: stream 0 is provisioned and has the globally earliest
first packet (timestamp 0 vs 5), but its prepare_for_editing returns false;
the re-seek is issued to active stream 1, not to stream 0 as the claim
states. -/
theorem edit_first_seek_counterexample :
    Editor.edit inertOrActiveCtx [⟨0, 0, 1⟩, ⟨1, 5, 1⟩] [(0, 0), (1, 1)] [] =
      some { firstSeek := some 1, output := [], remaining := [],
             finalCtxs := [(0, 0), (1, 1)], emptyWarning := false,
             closedDest := true, closedSource := true } ∧
    firstPktTime [⟨0, 0, 1⟩, ⟨1, 5, 1⟩] 0 = some 0 ∧
    firstPktTime [⟨0, 0, 1⟩, ⟨1, 5, 1⟩] 1 = some 5 ∧
    ((0 : ℚ) < 5) ∧
    0 ∈ ([(0, 0), (1, 1)] : List (Nat × Nat)).map Prod.fst := by
  have hp : probeFirstPkts [Packet.mk 0 0 1, Packet.mk 1 5 1]
      ([(0, 0), (1, 1)] : List (Nat × Nat)) = some [(0, 0), (1, 5)] := by
    simp [probeFirstPkts, firstPktTime]
  refine ⟨?_, by simp [firstPktTime], by simp [firstPktTime], by norm_num,
    by decide⟩
  unfold Editor.edit
  rw [hp]
  decide

theorem edit_reseeks_earliest_active_witness :
    1 ∈ activeIdx inertOrActiveCtx [(0, 0), (1, 1)] ∧
    ∀ j ∈ activeIdx inertOrActiveCtx [(0, 0), (1, 1)], ∀ qi qj,
      firstPktTime [⟨0, 0, 1⟩, ⟨1, 5, 1⟩] 1 = some qi →
      firstPktTime [⟨0, 0, 1⟩, ⟨1, 5, 1⟩] j = some qj → qi ≤ qj := by
  have hp : probeFirstPkts [Packet.mk 0 0 1, Packet.mk 1 5 1]
      ([(0, 0), (1, 1)] : List (Nat × Nat)) = some [(0, 0), (1, 5)] := by
    simp [probeFirstPkts, firstPktTime]
  have hr : Editor.edit inertOrActiveCtx [⟨0, 0, 1⟩, ⟨1, 5, 1⟩]
      [(0, 0), (1, 1)] [] =
      some { firstSeek := some 1, output := [], remaining := [],
             finalCtxs := [(0, 0), (1, 1)], emptyWarning := false,
             closedDest := true, closedSource := true } := by
    unfold Editor.edit
    rw [hp]
    decide
  exact edit_reseeks_earliest_active inertOrActiveCtx
    [⟨0, 0, 1⟩, ⟨1, 5, 1⟩] [(0, 0), (1, 1)] [] _ 1 (by decide) hr rfl

/-! ## C2 — numeric validation in from_json and the resolution check -/

deriving instance DecidableEq for Except

/-- C2 (code bug): the resolution check rejects only when the PRODUCT of the
dimensions is non-positive, so a resolution whose dimensions are BOTH
negative — each one non-positive — is accepted and stored, and from_json
returns normally, contradicting both the claim and the check's own error
message ("resolution must consist of positive numbers"). -/
theorem from_json_accepts_negative_resolution :
    Editor.from_json
      [(.dtype ID_VIDEO_STREAM,
        .entrySettings [(ID_RESOLUTION, .vnumarr [-2, -3])])] =
      .ok ⟨[(.stype ID_VIDEO_STREAM, [(ID_RESOLUTION, .vnumarr [-2, -3])]),
            (.stype ID_AUDIO_STREAM, [])]⟩ ∧
    ((-2 : ℚ) ≤ 0 ∧ (-3 : ℚ) ≤ 0) := by
  constructor
  · decide
  · constructor <;> norm_num

/-! ## C10 — sentence_segmentation requires a non-empty transcript -/

/-- C10: sentence_segmentation reads `transcript[0]` before anything else,
so the empty transcript fails (modelled as `none`) instead of yielding an
empty segmentation; for a non-empty transcript the access is safe and, with
spaCy sentences whose first span starts at character 0, the function returns
a result. -/
theorem sentence_segmentation_requires_nonempty (sents : List SentSpan) :
    sentence_segmentation sents [] = none ∧
    (∀ t rest, sents.head?.map SentSpan.start_char = some 0 →
      (sentence_segmentation sents (t :: rest)).isSome = true) := by
  constructor
  · rfl
  · intro t rest h0
    cases sents with
    | nil => simp at h0
    | cons s0 srest =>
      have hs0 : s0.start_char = 0 := by simpa using h0
      simp [sentence_segmentation, hs0]

theorem sentence_segmentation_requires_nonempty_witness :
    sentence_segmentation [⟨0, 2⟩] [] = none ∧
    (sentence_segmentation [⟨0, 2⟩] [⟨"a", 0, 1⟩]).isSome = true :=
  ⟨(sentence_segmentation_requires_nonempty [⟨0, 2⟩]).1,
   (sentence_segmentation_requires_nonempty [⟨0, 2⟩]).2 ⟨"a", 0, 1⟩ []
     (by decide)⟩

/-! ## C9 — sentence_segmentation partitions the transcript -/

theorem string_length_pos_of_ne (s : String) (h : s ≠ "") : 0 < s.length := by
  rcases s with ⟨l⟩
  cases l with
  | nil => exact absurd rfl h
  | cons c cs => simp [String.length]

theorem sumLen_nonneg (l : List Tok) :
    0 ≤ (l.map (fun u => (u.text.length : Int))).sum := by
  apply List.sum_nonneg
  intro x hx
  rcases List.mem_map.mp hx with ⟨t, _, rfl⟩
  exact Int.ofNat_nonneg _

/-- Every token position stays strictly below the end of the joined text,
provided the final token's text is non-empty. -/
theorem stage0Go_start_pos_lt (pos : Int) (idx : Nat) (ts : List RawTok)
    (hlast : ts.getLast?.map RawTok.text ≠ some "") :
    ∀ t ∈ stage0Go pos idx ts,
      t.start_pos <
        pos + ((stage0Go pos idx ts).map (fun u => (u.text.length : Int))).sum := by
  induction ts generalizing pos idx with
  | nil => intro t ht; cases ht
  | cons t0 rest ih =>
    cases rest with
    | nil =>
      intro t ht
      rcases List.mem_singleton.mp ht with rfl
      have hne : t0.text ≠ "" := by
        intro hh
        exact hlast (by simp [List.getLast?_singleton, hh])
      have hpos := string_length_pos_of_ne t0.text hne
      simp only [stage0Go, List.map_cons, List.map_nil, List.sum_cons,
        List.sum_nil]
      omega
    | cons t1 rest2 =>
      have hlast2 : (t1 :: rest2).getLast?.map RawTok.text ≠ some "" := by
        rwa [List.getLast?_cons_cons] at hlast
      intro t ht
      simp only [stage0Go] at ht ⊢
      rcases List.mem_cons.mp ht with rfl | hmem
      · have hrest := sumLen_nonneg
          (stage0Go (pos + ((t0.text ++ TOKEN_SEPARATOR).length : Int))
            (idx + 1) (t1 :: rest2))
        have hlen : 0 < ((t0.text ++ TOKEN_SEPARATOR).length : Int) := by
          have := String.length_append t0.text TOKEN_SEPARATOR
          simp only [this]
          have : 0 < TOKEN_SEPARATOR.length := by decide
          omega
        simp only [List.map_cons, List.sum_cons]
        omega
      · have hih := ih (pos + ((t0.text ++ TOKEN_SEPARATOR).length : Int))
          (idx + 1) hlast2 t hmem
        simp only [List.map_cons, List.sum_cons]
        omega

theorem stage0Go_map_index (pos : Int) (idx : Nat) (ts : List RawTok) :
    (stage0Go pos idx ts).map Tok.index = List.range' idx ts.length := by
  induction ts generalizing pos idx with
  | nil => rfl
  | cons t0 rest ih =>
    cases rest with
    | nil => simp [stage0Go, List.range']
    | cons t1 rest2 =>
      simp only [stage0Go, List.map_cons, List.length_cons]
      rw [ih]
      rfl

theorem takeWhile_all {α : Type} (p : α → Bool) (l : List α)
    (h : ∀ a ∈ l, p a = true) : l.takeWhile p = l := by
  induction l with
  | nil => rfl
  | cons a tl ih =>
    simp [List.takeWhile_cons, h a (List.mem_cons_self a tl),
      ih (fun b hb => h b (List.mem_cons_of_mem a hb))]

theorem dropWhile_all {α : Type} (p : α → Bool) (l : List α)
    (h : ∀ a ∈ l, p a = true) : l.dropWhile p = [] := by
  induction l with
  | nil => rfl
  | cons a tl ih =>
    simp [List.dropWhile_cons, h a (List.mem_cons_self a tl),
      ih (fun b hb => h b (List.mem_cons_of_mem a hb))]

/-- Step 1 consumes every token when the final spaCy sentence ends at or
after every token position. -/
theorem assignLoop_flatten (sents : List SentSpan) (toks : List Tok)
    (e : SentSpan) (hl : sents.getLast? = some e)
    (hlt : ∀ t ∈ toks, t.start_pos < e.end_char) :
    (assignLoop sents toks).flatten = toks := by
  induction sents generalizing toks with
  | nil => simp at hl
  | cons s rest ih =>
    cases rest with
    | nil =>
      have he : s = e := by simpa using hl
      subst he
      have ht := takeWhile_all (fun t => decide (t.start_pos < s.end_char)) toks
        (fun a ha => decide_eq_true (hlt a ha))
      have hd := dropWhile_all (fun t => decide (t.start_pos < s.end_char)) toks
        (fun a ha => decide_eq_true (hlt a ha))
      cases toks with
      | nil => simp [assignLoop]
      | cons a tl =>
        simp only [assignLoop, ht, hd]
        simp [assignLoop]
    | cons s2 rest2 =>
      have hl2 : (s2 :: rest2).getLast? = some e := by
        rwa [List.getLast?_cons_cons] at hl
      have hsub : ∀ t ∈ toks.dropWhile
          (fun t => decide (t.start_pos < s.end_char)),
          t.start_pos < e.end_char := by
        intro t ht
        exact hlt t ((List.dropWhile_sublist _).subset ht)
      have hrec := ih (toks.dropWhile
        (fun t => decide (t.start_pos < s.end_char))) hl2 hsub
      rw [show assignLoop (s :: s2 :: rest2) toks =
          (if (toks.takeWhile
              (fun t => decide (t.start_pos < s.end_char))).isEmpty then
            assignLoop (s2 :: rest2)
              (toks.dropWhile (fun t => decide (t.start_pos < s.end_char)))
          else
            toks.takeWhile (fun t => decide (t.start_pos < s.end_char)) ::
              assignLoop (s2 :: rest2)
                (toks.dropWhile (fun t => decide (t.start_pos < s.end_char))))
        from rfl]
      by_cases hemp :
          (toks.takeWhile (fun t => decide (t.start_pos < s.end_char))).isEmpty
      · rw [if_pos hemp, hrec]
        have hemp2 :
            toks.takeWhile (fun t => decide (t.start_pos < s.end_char)) = [] :=
          List.isEmpty_iff.mp hemp
        conv_rhs => rw [← List.takeWhile_append_dropWhile
          (p := fun t => decide (t.start_pos < s.end_char)) (l := toks)]
        rw [hemp2]
        rfl
      · rw [if_neg hemp, List.flatten_cons, hrec]
        exact List.takeWhile_append_dropWhile _ _

theorem assignLoop_nonempty (sents : List SentSpan) (toks : List Tok) :
    ∀ g ∈ assignLoop sents toks, g ≠ [] := by
  induction sents generalizing toks with
  | nil => intro g hg; cases hg
  | cons s rest ih =>
    intro g hg
    by_cases hemp :
        (toks.takeWhile (fun t => decide (t.start_pos < s.end_char))).isEmpty
    · simp only [assignLoop, if_pos hemp] at hg
      exact ih _ g hg
    · simp only [assignLoop, if_neg hemp] at hg
      rcases List.mem_cons.mp hg with rfl | hmem
      · intro hh
        rw [hh] at hemp
        simp at hemp
      · exact ih _ g hmem

theorem splitOneSentGo_flatten (fuel : Nat) (s : List Tok) :
    (splitOneSentGo fuel s).flatten = s := by
  induction fuel generalizing s with
  | zero => simp [splitOneSentGo]
  | succ n ih =>
    cases hg : findFirstGap s with
    | none => simp [splitOneSentGo, hg]
    | some i =>
      simp only [splitOneSentGo, hg, List.flatten_cons]
      rw [ih]
      exact List.take_append_drop i s

theorem splitOneSent_flatten (s : List Tok) : (splitOneSent s).flatten = s :=
  splitOneSentGo_flatten s.length s

theorem splitOneSentGo_nonempty (fuel : Nat) (s : List Tok) (hs : s ≠ []) :
    ∀ g ∈ splitOneSentGo fuel s, g ≠ [] := by
  induction fuel generalizing s with
  | zero =>
    intro g hg
    rcases List.mem_singleton.mp hg with rfl
    exact hs
  | succ n ih =>
    intro g hg
    cases hg2 : findFirstGap s with
    | none =>
      rw [splitOneSentGo, hg2] at hg
      rcases List.mem_singleton.mp hg with rfl
      exact hs
    | some i =>
      have hb := findFirstGap_bounds s i hg2
      rw [splitOneSentGo, hg2] at hg
      rcases List.mem_cons.mp hg with rfl | hmem
      · intro hh
        have hlen := congrArg List.length hh
        simp only [List.length_take, List.length_nil] at hlen
        omega
      · refine ih (s.drop i) ?_ g hmem
        intro hh
        have hlen := congrArg List.length hh
        simp only [List.length_drop, List.length_nil] at hlen
        omega

theorem flatMap_split_flatten (gs : List (List Tok)) :
    (gs.flatMap splitOneSent).flatten = gs.flatten := by
  induction gs with
  | nil => rfl
  | cons g rest ih =>
    simp only [List.flatMap_cons, List.flatten_append, ih,
      splitOneSent_flatten, List.flatten_cons]

theorem flatMap_split_nonempty (gs : List (List Tok))
    (h : ∀ g ∈ gs, g ≠ []) : ∀ g ∈ gs.flatMap splitOneSent, g ≠ [] := by
  induction gs with
  | nil => intro g hg; cases hg
  | cons a rest ih =>
    intro g hg
    simp only [List.flatMap_cons, List.mem_append] at hg
    rcases hg with hga | hgr
    · exact splitOneSentGo_nonempty a.length a
        (h a (List.mem_cons_self a rest)) g hga
    · exact ih (fun g2 hg2 => h g2 (List.mem_cons_of_mem a hg2)) g hgr

theorem fixTail_index (t : Tok) : (fixTail t).1.index = t.index := rfl

theorem stage3Go_map_index (d : Int) (cur : List Tok) (gs : List (List Tok)) :
    (stage3Go d cur gs).map (List.map Tok.index) =
      (cur :: gs).map (List.map Tok.index) := by
  induction gs generalizing d cur with
  | nil => rfl
  | cons next rest ih =>
    cases hcl : cur.getLast? with
    | none => simp only [stage3Go, hcl, List.map_cons, ih]
    | some lt =>
      by_cases hend : strEndsWith lt.text SENTENCE_SEPARATOR
      · simp only [stage3Go, hcl, if_pos hend, List.map_cons, ih]
      · simp only [stage3Go, hcl, if_neg hend, List.map_cons, ih]
        have hcur : (cur.dropLast ++ [(fixTail lt).1]).map Tok.index =
            cur.map Tok.index := by
          have hne : cur ≠ [] := by
            intro hh
            rw [hh] at hcl
            cases hcl
          have hgl : cur.getLast hne = lt := by
            have := List.getLast?_eq_getLast cur hne
            rw [hcl] at this
            injection this with hh
            exact hh.symm
          conv_rhs => rw [← List.dropLast_append_getLast hne]
          rw [hgl]
          simp [fixTail_index]
        have hnext : (next.map (shiftTok (d + (fixTail lt).2))).map Tok.index =
            next.map Tok.index := by
          rw [List.map_map]
          rfl
        simp [hcur, hnext]

theorem stage3Go_nonempty (d : Int) (cur : List Tok) (gs : List (List Tok))
    (hc : cur ≠ []) (h : ∀ g ∈ gs, g ≠ []) :
    ∀ g ∈ stage3Go d cur gs, g ≠ [] := by
  induction gs generalizing d cur with
  | nil =>
    intro g hg
    rcases List.mem_singleton.mp hg with rfl
    exact hc
  | cons next rest ih =>
    have hnext : next ≠ [] := h next (List.mem_cons_self next rest)
    have hrest : ∀ g ∈ rest, g ≠ [] :=
      fun g hg => h g (List.mem_cons_of_mem next hg)
    intro g hg
    cases hcl : cur.getLast? with
    | none =>
      rw [stage3Go, hcl] at hg
      rcases List.mem_cons.mp hg with rfl | hmem
      · exact hc
      · exact ih _ _ hnext hrest g hmem
    | some lt =>
      by_cases hend : strEndsWith lt.text SENTENCE_SEPARATOR
      · simp only [stage3Go, hcl, if_pos hend] at hg
        rcases List.mem_cons.mp hg with rfl | hmem
        · exact hc
        · exact ih _ _ hnext hrest g hmem
      · simp only [stage3Go, hcl, if_neg hend] at hg
        rcases List.mem_cons.mp hg with rfl | hmem
        · simp
        · refine ih _ _ ?_ hrest g hmem
          intro hh
          have := congrArg List.length hh
          simp at this
          exact hnext this

theorem stage3_map_index (gs : List (List Tok)) :
    (stage3 gs).map (List.map Tok.index) = gs.map (List.map Tok.index) := by
  cases gs with
  | nil => rfl
  | cons s rest => exact stage3Go_map_index 0 s rest

theorem stage3_nonempty (gs : List (List Tok)) (h : ∀ g ∈ gs, g ≠ []) :
    ∀ g ∈ stage3 gs, g ≠ [] := by
  cases gs with
  | nil => intro g hg; cases hg
  | cons s rest =>
    exact stage3Go_nonempty 0 s rest (h s (List.mem_cons_self s rest))
      (fun g hg => h g (List.mem_cons_of_mem s hg))

theorem flatMap_eq_map_flatten {α β : Type} (f : α → List β) (l : List α) :
    l.flatMap f = (l.map f).flatten := by
  induction l with
  | nil => rfl
  | cons a tl ih => simp [List.flatMap_cons, ih]

/-- C9 amended: for every non-empty transcript whose FINAL token has
non-empty normalized text, and spaCy sentences starting at character 0 and
ending at the end of the joined text, sentence_segmentation returns an
ordered, non-overlapping partition: the returned sentences' token indices,
concatenated, are exactly 0,...,n-1 in order, and no returned sentence is
empty.  (A final token normalized to the empty string falls outside every
spaCy sentence and is dropped, so the unrestricted claim fails.) -/
theorem sentence_segmentation_partition (sents : List SentSpan)
    (ts : List RawTok)
    (hne : ts ≠ [])
    (hlast : ts.getLast?.map RawTok.text ≠ some "")
    (h0 : sents.head?.map SentSpan.start_char = some 0)
    (hcov : sents.getLast?.map SentSpan.end_char = some (docLength ts)) :
    ∃ res, sentence_segmentation sents ts = some res ∧
      res.flatMap (List.map Tok.index) = List.range ts.length ∧
      ∀ g ∈ res, g ≠ [] := by
  cases ts with
  | nil => exact absurd rfl hne
  | cons t0 trest =>
  cases sents with
  | nil => simp at h0
  | cons s0 srest =>
    have hs0 : s0.start_char = 0 := by simpa using h0
    rcases Option.map_eq_some'.mp hcov with ⟨e, hle, hee⟩
    refine ⟨stage3 ((assignLoop (s0 :: srest)
        (stage0Go 0 0 (t0 :: trest))).flatMap splitOneSent),
      by simp [sentence_segmentation, hs0], ?_, ?_⟩
    · have hlt : ∀ t ∈ stage0Go 0 0 (t0 :: trest), t.start_pos < e.end_char := by
        intro t ht
        have := stage0Go_start_pos_lt 0 0 (t0 :: trest) hlast t ht
        rw [hee]
        unfold docLength
        omega
      rw [flatMap_eq_map_flatten, stage3_map_index,
        ← flatMap_eq_map_flatten]
      have hch : ((assignLoop (s0 :: srest) (stage0Go 0 0 (t0 :: trest))).flatMap
          splitOneSent).flatMap (List.map Tok.index) =
          List.map Tok.index (((assignLoop (s0 :: srest)
            (stage0Go 0 0 (t0 :: trest))).flatMap splitOneSent).flatten) := by
        rw [flatMap_eq_map_flatten, ← List.map_flatten]
      rw [hch, flatMap_split_flatten,
        assignLoop_flatten (s0 :: srest) _ e hle hlt, stage0Go_map_index,
        List.range_eq_range']
    · intro g hg
      refine stage3_nonempty _ ?_ g hg
      exact flatMap_split_nonempty _
        (assignLoop_nonempty (s0 :: srest) (stage0Go 0 0 (t0 :: trest)))

/-- C9 counterexample: the transcript has two tokens, the second normalized
to the empty string; with the spaCy sentence exactly covering the joined
text "a " (contract satisfied: starts at 0, ends at the text length 2), the
final token is dropped — the returned sentences hold token 0 only, not a
partition of both tokens. -/
theorem sentence_segmentation_drops_empty_token :
    ((sentence_segmentation [⟨0, 2⟩] [⟨"a", 0, 1⟩, ⟨"", 2, 3⟩]).map
      (fun r => r.flatMap (List.map Tok.index))) = some [0] ∧
    docLength [⟨"a", 0, 1⟩, ⟨"", 2, 3⟩] = 2 ∧
    some [0] ≠ some (List.range 2) := by
  refine ⟨by decide, by decide, by decide⟩

theorem sentence_segmentation_partition_witness :
    ∃ res, sentence_segmentation [⟨0, 5⟩]
        [⟨"ab", 0, 1⟩, ⟨"cd", 2, 3⟩] = some res ∧
      res.flatMap (List.map Tok.index) =
        List.range ([⟨"ab", 0, 1⟩, ⟨"cd", 2, 3⟩] : List RawTok).length ∧
      ∀ g ∈ res, g ≠ [] :=
  sentence_segmentation_partition [⟨0, 5⟩] [⟨"ab", 0, 1⟩, ⟨"cd", 2, 3⟩]
    (by decide) (by decide) (by decide) (by decide)

/-! ## C3 — settings round trip through export_json / from_json -/

/-- A rational carrying a Python int. -/
def intLike (q : ℚ) : Bool := q.den == 1

/-- The value shapes from_json itself produces (codec a string, codec
options a string mapping, bitrate and sample-rate positive ints, resolution
a pair of ints with positive product, max-fps a positive number, mono a
boolean); reloading such a value is the identity. -/
def normalVal (k : String) (v : JVal) : Bool :=
  if k = ID_CODEC then
    match v with | .vstr _ => true | _ => false
  else if k = ID_CODEC_OPTIONS then
    match v with | .vobj _ => true | _ => false
  else if k = ID_BITRATE then
    match v with
    | .vnum q => intLike q && decide (0 < q.num)
    | _ => false
  else if k = ID_RESOLUTION then
    match v with
    | .vnumarr l =>
      match l with
      | [w, h] => intLike w && intLike h && decide (0 < w.num * h.num)
      | _ => false
    | _ => false
  else if k = ID_MAX_FPS then
    match v with | .vnum q => decide (0 < q) | _ => false
  else if k = ID_SAMPLE_RATE then
    match v with
    | .vnum q => intLike q && decide (0 < q.num)
    | _ => false
  else if k = ID_MONO then
    match v with | .vbool _ => true | _ => false
  else false

theorem ratCast_num (q : ℚ) (h : q.den = 1) : ((q.num : ℚ)) = q := by
  have hd := Rat.num_div_den q
  rw [h] at hd
  simpa using hd

theorem pyIntOfRat_intLike (q : ℚ) (h : intLike q = true) :
    pyIntOfRat q = q.num := by
  have hd : q.den = 1 := by simpa [intLike] using h
  simp [pyIntOfRat, hd]

theorem processSetting_normal (settings : Settings) (k : String) (v : JVal)
    (h : normalVal k v = true) :
    processSetting settings k v = .ok (updateA settings k v) := by
  unfold normalVal at h
  unfold processSetting
  by_cases h1 : k = ID_CODEC
  · rw [if_pos h1] at h ⊢
    cases v <;> simp_all [pyStr]
  · rw [if_neg h1] at h ⊢
    by_cases h2 : k = ID_CODEC_OPTIONS
    · rw [if_pos h2] at h ⊢
      cases v <;> simp_all
    · rw [if_neg h2] at h ⊢
      by_cases h3 : k = ID_BITRATE
      · rw [if_pos h3] at h ⊢
        cases v with
        | vnum q =>
          simp only [Bool.and_eq_true, decide_eq_true_eq] at h
          have hd : q.den = 1 := by simpa [intLike] using h.1
          simp only [pyInt, pyIntOfRat_intLike q h.1]
          rw [if_neg (by omega)]
          rw [ratCast_num q hd]
        | vstr s => simp at h
        | vbool b => simp at h
        | vnumarr l => simp at h
        | vobj o => simp at h
      · rw [if_neg h3] at h ⊢
        by_cases h4 : k = ID_RESOLUTION
        · rw [if_pos h4] at h ⊢
          cases v with
          | vnumarr l =>
            match l with
            | [w, hh] =>
              simp only [Bool.and_eq_true, decide_eq_true_eq] at h
              obtain ⟨⟨hw1, hh1⟩, hprod⟩ := h
              have hw : w.den = 1 := by simpa [intLike] using hw1
              have hhd : hh.den = 1 := by simpa [intLike] using hh1
              simp only [List.map_cons, List.map_nil,
                pyIntOfRat_intLike w hw1, pyIntOfRat_intLike hh hh1]
              rw [if_neg (by omega)]
              rw [ratCast_num w hw, ratCast_num hh hhd]
            | [] => simp at h
            | [w] => simp at h
            | w :: hh :: x :: xs => simp at h
          | vstr s => simp at h
          | vnum q => simp at h
          | vbool b => simp at h
          | vobj o => simp at h
        · rw [if_neg h4] at h ⊢
          by_cases h5 : k = ID_MAX_FPS
          · rw [if_pos h5] at h ⊢
            cases v with
            | vnum q =>
              simp only [decide_eq_true_eq] at h
              simp only [pyFloat]
              rw [if_neg (by exact not_le.mpr h)]
            | vstr s => simp at h
            | vbool b => simp at h
            | vnumarr l => simp at h
            | vobj o => simp at h
          · rw [if_neg h5] at h ⊢
            by_cases h6 : k = ID_SAMPLE_RATE
            · rw [if_pos h6] at h ⊢
              cases v with
              | vnum q =>
                simp only [Bool.and_eq_true, decide_eq_true_eq] at h
                have hd : q.den = 1 := by simpa [intLike] using h.1
                simp only [pyInt, pyIntOfRat_intLike q h.1]
                rw [if_neg (by omega)]
                rw [ratCast_num q hd]
              | vstr s => simp at h
              | vbool b => simp at h
              | vnumarr l => simp at h
              | vobj o => simp at h
            · rw [if_neg h6] at h ⊢
              by_cases h7 : k = ID_MONO
              · rw [if_pos h7] at h ⊢
                cases v <;> simp_all [pyBool]
              · rw [if_neg h7] at h
                simp at h

theorem lookupA_cons_ne {α β : Type} [DecidableEq α] (k2 : α) (v2 : β)
    (tl : List (α × β)) (k : α) (h : ¬k2 = k) :
    lookupA ((k2, v2) :: tl) k = lookupA tl k := by
  simp [lookupA, h]

theorem updateA_fresh {α β : Type} [DecidableEq α] (l : List (α × β))
    (k : α) (v : β) (h : lookupA l k = none) : updateA l k v = l ++ [(k, v)] := by
  induction l with
  | nil => rfl
  | cons hd tl ih =>
    rcases hd with ⟨k2, v2⟩
    by_cases hk : k2 = k
    · simp [lookupA, hk] at h
    · rw [lookupA_cons_ne k2 v2 tl k hk] at h
      simp only [updateA, if_neg hk, List.cons_append]
      rw [ih h]

theorem processConfig_fresh (acc s : Settings)
    (hnorm : ∀ p ∈ s, normalVal p.1 p.2 = true)
    (hnd : (s.map Prod.fst).Nodup)
    (hfresh : ∀ p ∈ s, lookupA acc p.1 = none) :
    processConfig acc s = .ok (acc ++ s) := by
  induction s generalizing acc with
  | nil => simp [processConfig]
  | cons p rest ih =>
    rcases p with ⟨k, v⟩
    have hnv := hnorm (k, v) (List.mem_cons_self _ _)
    have hfr := hfresh (k, v) (List.mem_cons_self _ _)
    simp only [List.map_cons, List.nodup_cons] at hnd
    simp only [processConfig, processSetting_normal acc k v hnv]
    rw [updateA_fresh acc k v hfr]
    have hfresh2 : ∀ p ∈ rest, lookupA (acc ++ [(k, v)]) p.1 = none := by
      intro p hp
      rw [lookupA_append]
      have h1 := hfresh p (List.mem_cons_of_mem _ hp)
      have h2 : ¬k = p.1 := by
        intro hh
        exact hnd.1 (hh ▸ List.mem_map.mpr ⟨p, hp, rfl⟩)
      simp [h1, lookupA, h2]
    rw [ih (acc ++ [(k, v)])
      (fun q hq => hnorm q (List.mem_cons_of_mem _ hq)) hnd.2 hfresh2]
    simp

theorem updateA_append_last {α β : Type} [DecidableEq α] (l : List (α × β))
    (k : α) (x v : β) (h : lookupA l k = none) :
    updateA (l ++ [(k, x)]) k v = l ++ [(k, v)] := by
  induction l with
  | nil => simp [updateA]
  | cons hd tl ih =>
    rcases hd with ⟨k2, v2⟩
    by_cases hk : k2 = k
    · simp [lookupA, hk] at h
    · rw [lookupA_cons_ne k2 v2 tl k hk] at h
      rw [List.cons_append,
        show updateA ((k2, v2) :: (tl ++ [(k, x)])) k v =
          (k2, v2) :: updateA (tl ++ [(k, x)]) k v from by
            simp [updateA, hk],
        ih h, List.cons_append]

/-- Processing the serialized form of fresh stream-index settings appends
them unchanged. -/
theorem from_json_go_sidx (rest : List (SKey × Settings))
    (cur : List (SKey × Settings)) (tailDoc : List (DocKey × DocEntry))
    (hkeys : ∀ p ∈ rest, ∃ n, p.1 = SKey.sidx n)
    (hnorm : ∀ p ∈ rest, (∀ q ∈ p.2, normalVal q.1 q.2 = true) ∧
      (p.2.map Prod.fst).Nodup)
    (hfresh : ∀ p ∈ rest, lookupA cur p.1 = none)
    (hnd : (rest.map Prod.fst).Nodup) :
    from_json_go cur
      ((rest.map (fun p => (serializeSKey p.1, DocEntry.entrySettings p.2)))
        ++ tailDoc) =
      from_json_go (cur ++ rest) tailDoc := by
  induction rest generalizing cur with
  | nil => simp
  | cons p rest2 ih =>
    rcases p with ⟨k, s⟩
    rcases hkeys (k, s) (List.mem_cons_self _ _) with ⟨n, hkn⟩
    simp only at hkn
    subst hkn
    have hfr := hfresh (SKey.sidx n, s) (List.mem_cons_self _ _)
    simp only at hfr
    have hns := hnorm (SKey.sidx n, s) (List.mem_cons_self _ _)
    simp only [List.map_cons, List.nodup_cons] at hnd
    have hpc : processConfig [] s = .ok s := by
      have := processConfig_fresh [] s hns.1 hns.2 (fun p hp => rfl)
      simpa using this
    show ((match processConfig (setdefaultSK cur (SKey.sidx n)).2 s with
      | .error e => .error e
      | .ok s2 => from_json_go
          (updateA (setdefaultSK cur (SKey.sidx n)).1 (SKey.sidx n) s2)
          ((rest2.map (fun p : SKey × Settings =>
            (serializeSKey p.1, DocEntry.entrySettings p.2))) ++ tailDoc)) :
      Except String (List (SKey × Settings))) = _
    rw [show setdefaultSK cur (SKey.sidx n) = (cur ++ [(SKey.sidx n, [])], []) by
      unfold setdefaultSK
      rw [hfr]]
    rw [hpc]
    show from_json_go
      (updateA (cur ++ [(SKey.sidx n, [])]) (SKey.sidx n) s) _ = _
    rw [updateA_append_last cur (SKey.sidx n) [] s hfr]
    have hfresh2 : ∀ p ∈ rest2, lookupA (cur ++ [(SKey.sidx n, s)]) p.1 = none := by
      intro p hp
      rw [lookupA_append]
      have h1 := hfresh p (List.mem_cons_of_mem _ hp)
      have h2 : ¬SKey.sidx n = p.1 := by
        intro hh
        exact hnd.1 (hh ▸ List.mem_map.mpr ⟨p, hp, rfl⟩)
      simp [h1, lookupA, h2]
    rw [ih (cur ++ [(SKey.sidx n, s)])
      (fun q hq => hkeys q (List.mem_cons_of_mem _ hq))
      (fun q hq => hnorm q (List.mem_cons_of_mem _ hq)) hfresh2 hnd.2]
    simp

/-- The persisted interval list entry is skipped by from_json. -/
theorem from_json_go_timeline (es : List (SKey × Settings))
    (cs : List (List ℚ)) :
    from_json_go es [(.dtype ID_TIMELINE_CHANGES, .entryTable cs)] = .ok es :=
  rfl

/-- C3 amended: for every editor whose settings have the shape from_json
itself produces — the "video" and "audio" entries first (as seeded by the
constructor), then stream-index entries with distinct indices, every value
normalized (`normalVal`) and every per-stream key set duplicate-free —
exporting the settings together with an optional interval list and reloading
the document reconstructs the per-stream-type and per-stream-index settings
exactly.  (An editor built directly with un-normalized values, e.g. a
numeric codec, is re-coerced on reload and ends up with different resolved
settings, so the unrestricted claim fails.) -/
theorem from_json_export_json_roundtrip (sv sa : Settings)
    (rest : List (SKey × Settings)) (cs : Option (List ChangeRow))
    (hsv1 : ∀ q ∈ sv, normalVal q.1 q.2 = true)
    (hsv2 : (sv.map Prod.fst).Nodup)
    (hsa1 : ∀ q ∈ sa, normalVal q.1 q.2 = true)
    (hsa2 : (sa.map Prod.fst).Nodup)
    (hkeys : ∀ p ∈ rest, ∃ n, p.1 = SKey.sidx n)
    (hnorm : ∀ p ∈ rest, (∀ q ∈ p.2, normalVal q.1 q.2 = true) ∧
      (p.2.map Prod.fst).Nodup)
    (hnd : (rest.map Prod.fst).Nodup) :
    Editor.from_json (Editor.export_json
        ⟨(SKey.stype ID_VIDEO_STREAM, sv) :: (SKey.stype ID_AUDIO_STREAM, sa)
          :: rest⟩ cs) =
      .ok ⟨(SKey.stype ID_VIDEO_STREAM, sv) :: (SKey.stype ID_AUDIO_STREAM, sa)
          :: rest⟩ := by
  have hpcv : processConfig [] sv = .ok sv := by
    have := processConfig_fresh [] sv hsv1 hsv2 (fun p hp => rfl)
    simpa using this
  have hpca : processConfig [] sa = .ok sa := by
    have := processConfig_fresh [] sa hsa1 hsa2 (fun p hp => rfl)
    simpa using this
  obtain ⟨tailDoc, htd, htail⟩ :
      ∃ td : List (DocKey × DocEntry),
        Editor.export_json
          ⟨(SKey.stype ID_VIDEO_STREAM, sv) :: (SKey.stype ID_AUDIO_STREAM, sa)
            :: rest⟩ cs =
          (DocKey.dtype ID_VIDEO_STREAM, DocEntry.entrySettings sv) ::
          (DocKey.dtype ID_AUDIO_STREAM, DocEntry.entrySettings sa) ::
          ((rest.map (fun p : SKey × Settings =>
              (serializeSKey p.1, DocEntry.entrySettings p.2))) ++ td) ∧
        (∀ es : List (SKey × Settings), from_json_go es td = .ok es) := by
    cases cs with
    | none => exact ⟨[], rfl, fun es => rfl⟩
    | some cs2 =>
      exact ⟨[(.dtype ID_TIMELINE_CHANGES,
          .entryTable (cs2.map (fun c : ChangeRow => [c.1, c.2.1, c.2.2])))],
        rfl, fun es => from_json_go_timeline es _⟩
  have hfreshInit : ∀ p ∈ rest,
      lookupA [(SKey.stype ID_VIDEO_STREAM, sv),
        (SKey.stype ID_AUDIO_STREAM, sa)] p.1 = none := by
    intro p hp
    rcases hkeys p hp with ⟨n, hkn⟩
    rw [hkn]
    rfl
  have hgo : from_json_go (Editor.mk0 [] []).settings
      ((DocKey.dtype ID_VIDEO_STREAM, DocEntry.entrySettings sv) ::
        (DocKey.dtype ID_AUDIO_STREAM, DocEntry.entrySettings sa) ::
        ((rest.map (fun p : SKey × Settings =>
            (serializeSKey p.1, DocEntry.entrySettings p.2))) ++ tailDoc)) =
      .ok ((SKey.stype ID_VIDEO_STREAM, sv) :: (SKey.stype ID_AUDIO_STREAM, sa)
          :: rest) := by
    show ((match processConfig [] sv with
      | .error e => .error e
      | .ok s2 => from_json_go
          (updateA [(SKey.stype ID_VIDEO_STREAM, []),
            (SKey.stype ID_AUDIO_STREAM, [])] (SKey.stype ID_VIDEO_STREAM) s2)
          ((DocKey.dtype ID_AUDIO_STREAM, DocEntry.entrySettings sa) ::
          ((rest.map (fun p : SKey × Settings =>
              (serializeSKey p.1, DocEntry.entrySettings p.2))) ++ tailDoc))) :
      Except String (List (SKey × Settings))) = _
    rw [hpcv]
    show ((match processConfig [] sa with
      | .error e => .error e
      | .ok s2 => from_json_go
          (updateA [(SKey.stype ID_VIDEO_STREAM, sv),
            (SKey.stype ID_AUDIO_STREAM, [])] (SKey.stype ID_AUDIO_STREAM) s2)
          ((rest.map (fun p : SKey × Settings =>
              (serializeSKey p.1, DocEntry.entrySettings p.2))) ++ tailDoc)) :
      Except String (List (SKey × Settings))) = _
    rw [hpca]
    show from_json_go [(SKey.stype ID_VIDEO_STREAM, sv),
        (SKey.stype ID_AUDIO_STREAM, sa)]
      ((rest.map (fun p : SKey × Settings =>
          (serializeSKey p.1, DocEntry.entrySettings p.2))) ++ tailDoc) = _
    rw [from_json_go_sidx rest _ _ hkeys hnorm hfreshInit hnd, htail]
    rfl
  unfold Editor.from_json
  rw [htd, hgo]

/-- An editor built by the constructor with a NUMERIC codec value: legal for
editing (the value is resolved as-is), but not of the shape from_json
produces. -/
def numericCodecEditor : EditorM := Editor.mk0 [(ID_CODEC, .vnum 5)] []

/-- C3 counterexample: exporting an editor whose video codec setting is the
number 5 and reloading yields the STRING "5" (from_json's str() coercion),
so the reconstructed editor's resolved video-type settings — and the codec
resolved for a video stream — differ from the original's. -/
theorem export_roundtrip_counterexample :
    Editor.from_json (Editor.export_json numericCodecEditor none) =
      .ok ⟨[(SKey.stype ID_VIDEO_STREAM, [(ID_CODEC, .vstr "5")]),
            (SKey.stype ID_AUDIO_STREAM, [])]⟩ ∧
    (⟨[(SKey.stype ID_VIDEO_STREAM, [(ID_CODEC, .vstr "5")]),
        (SKey.stype ID_AUDIO_STREAM, [])]⟩ : EditorM) ≠ numericCodecEditor ∧
    provisionStream numericCodecEditor.settings sampleVideoStream ≠
      provisionStream [(SKey.stype ID_VIDEO_STREAM, [(ID_CODEC, .vstr "5")]),
        (SKey.stype ID_AUDIO_STREAM, [])] sampleVideoStream := by
  refine ⟨by decide, by decide, by decide⟩

theorem from_json_export_json_roundtrip_witness :
    Editor.from_json (Editor.export_json
        ⟨[(SKey.stype ID_VIDEO_STREAM, [(ID_BITRATE, .vnum 5)]),
          (SKey.stype ID_AUDIO_STREAM, [(ID_MONO, .vbool true)]),
          (SKey.sidx 0, [(ID_MAX_FPS, .vnum 30)])]⟩
        (some [(0, 1, 1)])) =
      .ok ⟨[(SKey.stype ID_VIDEO_STREAM, [(ID_BITRATE, .vnum 5)]),
          (SKey.stype ID_AUDIO_STREAM, [(ID_MONO, .vbool true)]),
          (SKey.sidx 0, [(ID_MAX_FPS, .vnum 30)])]⟩ :=
  from_json_export_json_roundtrip [(ID_BITRATE, .vnum 5)]
    [(ID_MONO, .vbool true)] [(SKey.sidx 0, [(ID_MAX_FPS, .vnum 30)])]
    (some [(0, 1, 1)])
    (by decide) (by decide) (by decide) (by decide)
    (by
      intro p hp
      rcases List.mem_singleton.mp hp with rfl
      exact ⟨0, rfl⟩)
    (by decide) (by decide)

end Speechless
